import Mathlib

/-!
Verification of the `vs-docblockr` lexer and language parsers.

The development shallowly embeds the code of `src/src/lexer.ts` (the pug-style
`Lexer` class), the newer `Lexer` variant contained in
`src/src/languages/JavaScript.ts`, the `JavaScript.tokenize` parser method, and
the `C` parser class contained in `src/test/languages/scss.test.ts`.

Strings are represented as `List Char`.  The external npm dependencies
`character-parser` and `is-expression` are not part of the repository: the
bracket scanner is modelled from the specification (a nesting-aware scanner
that understands strings and nested brackets, respecting quotes), and the
expression validator is kept abstract as an `Oracle` parameter
`List Char → Bool`, so every theorem holds for each possible validator.
-/

deriving instance DecidableEq for Except

namespace VsDocblockr

/-- The single-quote character, `'`. -/
def sq : Char := Char.ofNat 39

/-- The backslash character, `\`. -/
def bs : Char := Char.ofNat 92

/-- Character class of the regex `/[ \n\t]/` (`whitespaceRe` in `Lexer.attrs`). -/
def isWsAttr (c : Char) : Bool := c = ' ' || c = '\n' || c = '\t'

/-- Character class of the regex `/['"]/` (`quoteRe` in `Lexer.attrs`). -/
def isQuoteChar (c : Char) : Bool := c = sq || c = '"'

/-- Modelled from the spec: the whitespace set of JavaScript `String.trim`
restricted to ASCII whitespace characters. -/
def isJsWs (c : Char) : Bool :=
  c = ' ' || c = '\t' || c = '\n' || c = '\r' || c = Char.ofNat 11 || c = Char.ofNat 12

/-- JavaScript `String.prototype.trim` on a character list. -/
def jsTrim (l : List Char) : List Char :=
  ((l.dropWhile isJsWs).reverse.dropWhile isJsWs).reverse

/-- The replacement `key.replace(/^['"]|['"]$/g, '')` from `Lexer.attrs`:
drop one leading quote and one trailing quote. -/
def stripEdgeQuotes (l : List Char) : List Char :=
  let l1 := match l with
    | c :: rest => if isQuoteChar c then rest else l
    | [] => []
  match l1.getLast? with
  | some c => if isQuoteChar c then l1.dropLast else l1
  | none => l1

/-- `code.replace(/^﻿/, '')` from the `Lexer` constructor: strip a UTF-8 BOM. -/
def stripBOM (l : List Char) : List Char :=
  match l with
  | c :: rest => if c = Char.ofNat 0xFEFF then rest else l
  | [] => []

/-- `code.replace(/\r\n|\r/g, '\n')` from the `Lexer` constructor. -/
def normNL : List Char → List Char
  | [] => []
  | '\r' :: '\n' :: rest => '\n' :: normNL rest
  | '\r' :: rest => '\n' :: normNL rest
  | c :: rest => c :: normNL rest

/-- The input normalization performed by the `Lexer` constructor. -/
def normalizeInput (code : List Char) : List Char := normNL (stripBOM code)

/-! ## Modelled `character-parser` state

Modelled from the spec: `character-parser` provides "a nesting-aware bracket
scanner that understands strings and nested brackets/parens/braces (skipping
nested delimiters, respecting quotes)".  The model tracks bracket depths and
single/double quote state with escapes; it does not model the library's
comment and regular-expression handling. -/

structure CPState where
  round : Int
  curly : Int
  square : Int
  singleQ : Bool
  doubleQ : Bool
  escaped : Bool
deriving DecidableEq, Repr

/-- Modelled from the spec: `characterParser.defaultState()`. -/
def cpDefault : CPState := ⟨0, 0, 0, false, false, false⟩

/-- Modelled from the spec: `characterParser.parseChar`, advancing the scanner
state by one character (quotes with escapes, bracket depths). -/
def cpParseChar (c : Char) (s : CPState) : CPState :=
  if s.singleQ then
    if c = sq && !s.escaped then { s with singleQ := false, escaped := false }
    else if c = bs && !s.escaped then { s with escaped := true }
    else { s with escaped := false }
  else if s.doubleQ then
    if c = '"' && !s.escaped then { s with doubleQ := false, escaped := false }
    else if c = bs && !s.escaped then { s with escaped := true }
    else { s with escaped := false }
  else if c = sq then { s with singleQ := true }
  else if c = '"' then { s with doubleQ := true }
  else if c = '(' then { s with round := s.round + 1 }
  else if c = ')' then { s with round := s.round - 1 }
  else if c = '{' then { s with curly := s.curly + 1 }
  else if c = '}' then { s with curly := s.curly - 1 }
  else if c = '[' then { s with square := s.square + 1 }
  else if c = ']' then { s with square := s.square - 1 }
  else s

/-- Modelled from the spec: `state.isString()` — inside a quoted string. -/
def CPState.isString (s : CPState) : Bool := s.singleQ || s.doubleQ

/-- Modelled from the spec: `state.isNesting()` — inside brackets (a truthy,
i.e. nonzero, depth counter). -/
def CPState.isNesting (s : CPState) : Bool :=
  s.round ≠ 0 || s.curly ≠ 0 || s.square ≠ 0

/-- Modelled from the spec: `characterParser.parse(exp)` — run the scanner over
a whole string from the default state. -/
def cpParse (exp : List Char) : CPState := exp.foldl (fun s c => cpParseChar c s) cpDefault

/-- The error message thrown by `character-parser` when `parseUntil` exhausts
the string. -/
def cpEndMsg : String :=
  "The end of the string was reached with no closing bracket found."

/-- Modelled from the spec: the scanning loop of `characterParser.parseUntil`:
return the index of the first occurrence of the delimiter that is not nested
and not inside a string, or fail with `cpEndMsg`. -/
def cpParseUntilGo (delim : Char) : List Char → Nat → CPState → Except String Nat
  | [], _, _ => .error cpEndMsg
  | c :: rest, idx, s =>
    if !(s.isNesting || s.isString) && c = delim then .ok idx
    else cpParseUntilGo delim rest (idx + 1) (cpParseChar c s)

/-- Modelled from the spec: `characterParser.parseUntil(src, delim, start)`,
returning the `end` field of the resulting range. -/
def cpParseUntil (src : List Char) (delim : Char) (start : Nat) : Except String Nat :=
  cpParseUntilGo delim (src.drop start) start cpDefault

/-- Modelled from the spec: `characterParser.isPunctuator` — membership in the
set of JavaScript punctuator characters. -/
def cpIsPunctuator (c : Char) : Bool :=
  c = '.' || c = '(' || c = ')' || c = ';' || c = ',' || c = '{' || c = '}' ||
  c = '[' || c = ']' || c = ':' || c = '?' || c = '~' || c = '%' || c = '&' ||
  c = '*' || c = '+' || c = '-' || c = '/' || c = '<' || c = '>' || c = '^' ||
  c = '|' || c = '!' || c = '='

/-! ## Token data model (`Lexed` interface of `src/src/lexer.ts`) -/

/-- A token value: `Lexed.val` has type `string | boolean` in `src/src/lexer.ts`. -/
inductive LVal where
  | strv : List Char → LVal
  | boolv : Bool → LVal
deriving DecidableEq, Repr

/-- The `Lexed` token interface of `src/src/lexer.ts` (fields `type`, `line`,
`col`, and the optional `name`, `val`, `buffer`, `mustEscape`). -/
structure Lexed where
  type : String
  line : Nat
  col : Nat
  name : Option (List Char) := none
  val : Option LVal := none
  buffer : Option Bool := none
  mustEscape : Option Bool := none
deriving DecidableEq, Repr

/-- The mutable state of a `Lexer` instance: `input`, `line`, `column`,
`tokens`, `ended`.  The extra `consumed` field is a ghost variable recording,
in order, every character removed by `consume`; it is used to state the
round-trip property and has no influence on the computation. -/
structure LexSt where
  input : List Char
  line : Nat
  col : Nat
  tokens : List Lexed
  ended : Bool
  consumed : List Char
deriving DecidableEq, Repr

/-- `Lexer.tokenize(type, val?)`: build a token at the current line/column. -/
def mkTok (st : LexSt) (ty : String) (v : Option LVal) : Lexed :=
  { type := ty, line := st.line, col := st.col, val := v }

/-- `Lexer.consume(length)`: strip `len` characters from the front of `input`
(the ghost `consumed` field records them). -/
def consume (st : LexSt) (len : Nat) : LexSt :=
  { st with input := st.input.drop len, consumed := st.consumed ++ st.input.take len }

/-- The expression-validity oracle abstracting the `is-expression` npm package
(`Lexer.checkExpression` with `noThrow` asks this predicate; the throwing
variant raises iff it answers `false`). -/
abbrev Oracle := List Char → Bool

/-! ## Recognizers of `src/src/lexer.ts` -/

/-- `Lexer.eos()`: if no input remains, push an `eos` token and end lexing. -/
def eosStep (st : LexSt) : Option LexSt :=
  if st.input.isEmpty then
    some { st with tokens := st.tokens ++ [mkTok st "eos" none], ended := true }
  else none

/-- First/last character class of the tag regex
`/^([a-zA-Z0-9$](?:[-:a-zA-Z0-9$]*[a-zA-Z0-9$])?)/`. -/
def tagEdge (c : Char) : Bool := c.isAlpha || c.isDigit || c = '$'

/-- Interior character class of the tag regex: `[-:a-zA-Z0-9$]`. -/
def tagMid (c : Char) : Bool := tagEdge c || c = '-' || c = ':'

/-- The greedy match of the tag regex against a prefix of the input: the first
character must be in `tagEdge`; the optional group extends through `tagMid`
characters and backtracks so that the match ends on a `tagEdge` character. -/
def tagMatch (input : List Char) : Option (List Char) :=
  match input with
  | [] => none
  | c :: rest =>
    if tagEdge c then
      let run := rest.takeWhile tagMid
      some (c :: (run.reverse.dropWhile (fun d => !tagEdge d)).reverse)
    else none

/-- `Lexer.tag()`: consume a tag match and push a `tag` token. -/
def tagStep (st : LexSt) : Option LexSt :=
  match tagMatch st.input with
  | none => none
  | some m =>
    some { consume st m.length with
             tokens := st.tokens ++ [mkTok st "tag" (some (.strv m))],
             col := st.col + m.length }

/-- The flag alternation `(!?=|-)` of the code regex: the matched flag group
and the remaining input. -/
def codeFlags : List Char → Option (List Char × List Char)
  | '!' :: '=' :: rest => some (['!', '='], rest)
  | '=' :: rest => some (['='], rest)
  | '-' :: rest => some (['-'], rest)
  | _ => none

/-- The match of the code regex `/^(!?=|-)[ \t]*([^\n]+)/`: returns the flag
group, the code group, and the full match length. -/
def codeMatch (input : List Char) : Option (List Char × List Char × Nat) :=
  match codeFlags input with
  | none => none
  | some (flags, rest) =>
    let sp := rest.takeWhile (fun c => c = ' ' || c = '\t')
    let codeCap := (rest.drop sp.length).takeWhile (fun c => c ≠ '\n')
    if codeCap.isEmpty then none
    else some (flags, codeCap, flags.length + sp.length + codeCap.length)

/-- `Lexer.code()`: consume a code match, set the `mustEscape`/`buffer` flags,
validate buffered code with the oracle, and push a `code` token. -/
def codeStep (o : Oracle) (st : LexSt) : Option (Except String LexSt) :=
  match codeMatch st.input with
  | none => none
  | some (flags, codeCap, full) =>
    let buffer := flags.head? = some '=' || flags.get? 1 = some '='
    let tok := { mkTok st "code" (some (.strv codeCap)) with
                   mustEscape := some (decide (flags.head? = some '=')),
                   buffer := some (decide buffer) }
    if buffer && !(o codeCap) then some (.error "Syntax Error")
    else
      some (.ok { consume st full with
                    tokens := st.tokens ++ [tok],
                    col := st.col + (full - codeCap.length) + codeCap.length })

/-- The sub-state of the `attrs` character loop: `key`, `key-char` or `value`. -/
inductive ALoc where
  | key
  | keyChar
  | value
deriving DecidableEq, Repr

/-- The mutable locals of the `Lexer.attrs` loop together with the lexer's
`line`/`column` counters (`tline`/`tcol`) and the `attribute` tokens pushed so
far. -/
structure AttrSt where
  i : Nat
  quote : Option Char
  escapedAttr : Bool
  key : List Char
  val : List Char
  loc : ALoc
  cps : CPState
  lline : Nat
  colBeginAttr : Nat
  colBeginVal : Nat
  tline : Nat
  tcol : Nat
  toks : List Lexed
deriving DecidableEq, Repr

/-- The closure `isEndOfAttribute(i)` of `Lexer.attrs`; returns the boolean
result together with the (possibly updated) `columnBeginAttr`, the only piece
of state the closure assigns. -/
def isEndOfAttr (attrStr : List Char) (o : Oracle) (a : AttrSt) : Bool × Nat :=
  if jsTrim a.key = [] then (false, a.tcol)
  else if a.i = attrStr.length then (true, a.colBeginAttr)
  else
    match a.loc with
    | .key =>
      match attrStr.get? a.i with
      | some c =>
        if isWsAttr c then
          match ((attrStr.drop a.i).dropWhile isWsAttr).head? with
          | some d =>
            if d = '=' || d = '!' then (false, a.colBeginAttr)
            else if d = ',' then (false, a.colBeginAttr)
            else (true, a.colBeginAttr)
          | none => (decide (c = ','), a.colBeginAttr)
        else (decide (c = ','), a.colBeginAttr)
      | none => (false, a.colBeginAttr)
    | .value =>
      if a.cps.isNesting || a.cps.isString then (false, a.colBeginAttr)
      else if !(o a.val) then (false, a.colBeginAttr)
      else
        match attrStr.get? a.i with
        | some c =>
          if isWsAttr c then
            match ((attrStr.drop a.i).dropWhile isWsAttr).head? with
            | some d => (!(cpIsPunctuator d) || isQuoteChar d, a.colBeginAttr)
            | none => (decide (c = ','), a.colBeginAttr)
          else (decide (c = ','), a.colBeginAttr)
        | none => (false, a.colBeginAttr)
    | .keyChar => (false, a.colBeginAttr)

/-- The check `if (attrStr[i] === '\n') ... else if (attrStr[i] !== undefined)`
performed at the bottom of every iteration of the `attrs` loop. -/
def nlCheck (attrStr : List Char) (a : AttrSt) : AttrSt :=
  match attrStr.get? a.i with
  | some c =>
    if c = '\n' then
      let l := a.lline + 1
      { a with lline := l, tcol := 1, tline := if jsTrim a.key = [] then l else a.tline }
    else { a with tcol := a.tcol + 1 }
  | none => a

/-- One iteration of the `for (var i = 0; i <= attrStr.length; i++)` loop body
of `Lexer.attrs`, parameterized by the `emit` function that turns the trimmed
value into the token's `val` (the two lexer versions differ only there). -/
def attrsBody (emit : List Char → LVal) (o : Oracle) (attrStr : List Char)
    (a0 : AttrSt) : Except String AttrSt :=
  let p := isEndOfAttr attrStr o a0
  let a := { a0 with colBeginAttr := p.2 }
  if p.1 then
    if jsTrim a.val ≠ [] && !(o a.val) then .error "Syntax Error"
    else
      let val1 := jsTrim a.val
      let key1 := stripEdgeQuotes (jsTrim a.key)
      let tok : Lexed :=
        { type := "attribute", line := a.tline, col := a.colBeginAttr,
          name := some key1, val := some (emit val1), mustEscape := some a.escapedAttr }
      .ok (nlCheck attrStr
        { a with key := [], val := [], loc := .key, escapedAttr := false,
                 tline := a.lline, toks := a.toks ++ [tok] })
  else
    match a.loc with
    | .keyChar =>
      match attrStr.get? a.i with
      | some c =>
        if some c = a.quote then
          match attrStr.get? (a.i + 1) with
          | some d =>
            if !(d = ' ' || d = ',' || d = '!' || d = '=' || d = '\n' || d = '\t') then
              .error "Unexpected character"
            else .ok (nlCheck attrStr { a with loc := .key })
          | none => .ok (nlCheck attrStr { a with loc := .key })
        else .ok (nlCheck attrStr { a with key := a.key ++ [c] })
      | none => .ok (nlCheck attrStr { a with key := a.key ++ "undefined".toList })
    | .key =>
      match attrStr.get? a.i with
      | some c =>
        if a.key = [] && isQuoteChar c then
          .ok (nlCheck attrStr { a with loc := .keyChar, quote := some c })
        else if c = '!' || c = '=' then
          let esc := decide (c ≠ '!')
          let a1 := if c = '!' then { a with tcol := a.tcol + 1, i := a.i + 1 } else a
          match attrStr.get? a1.i with
          | some '=' =>
            .ok (nlCheck attrStr
              { a1 with escapedAttr := esc, loc := .value,
                        colBeginVal := a1.tcol + 1, cps := cpDefault })
          | _ => .error "Unexpected character expected equals"
        else .ok (nlCheck attrStr { a with key := a.key ++ [c] })
      | none => .ok (nlCheck attrStr { a with key := a.key ++ "undefined".toList })
    | .value =>
      match attrStr.get? a.i with
      | some c =>
        .ok (nlCheck attrStr { a with cps := cpParseChar c a.cps, val := a.val ++ [c] })
      | none => .error "Character must be a string of length 1"

/-- The full `attrs` character loop, driven by fuel (the loop index strictly
increases, so `attrStr.length + 2` units of fuel always suffice). -/
def attrsLoop (emit : List Char → LVal) (o : Oracle) (attrStr : List Char) :
    Nat → AttrSt → Except String AttrSt
  | 0, _ => .error "attrsLoop: out of fuel"
  | fuel + 1, a =>
    if a.i ≤ attrStr.length then
      match attrsBody emit o attrStr a with
      | .error e => .error e
      | .ok a1 => attrsLoop emit o attrStr fuel { a1 with i := a1.i + 1 }
    else .ok a

/-- The initial state of the `attrs` loop locals: empty key and value, `key`
location, default scanner state, columns at the character after `(`. -/
def attrsInit (st : LexSt) : AttrSt :=
  { i := 0, quote := none, escapedAttr := true, key := [], val := [],
    loc := .key, cps := cpDefault, lline := st.line, colBeginAttr := st.col + 1,
    colBeginVal := 0, tline := st.line, tcol := st.col + 1, toks := [] }

/-- `Lexer.attrs()`: on a leading `(`, push `start-attributes`, find the
matching bracket, check nesting, consume the bracketed text, run the attribute
loop, then push `end-attributes`. -/
def attrsStep (emit : List Char → LVal) (o : Oracle) (st : LexSt) :
    Option (Except String LexSt) :=
  if st.input.head? = some '(' then
    some (
      match cpParseUntil st.input ')' 1 with
      | .error e => .error e
      | .ok idx =>
        let attrStr := (st.input.drop 1).take (idx - 1)
        if (cpParse attrStr).isNesting then .error "Nesting must match on expression"
        else
          let st1 := consume
            { st with col := st.col + 1,
                      tokens := st.tokens ++ [mkTok st "start-attributes" none] }
            (idx + 1)
          match attrsLoop emit o attrStr (attrStr.length + 2) (attrsInit st) with
          | .error e => .error e
          | .ok a =>
            let lineEnd := st.line + attrStr.count '\n'
            let endTok : Lexed := { type := "end-attributes", line := lineEnd, col := a.tcol }
            .ok { st1 with line := lineEnd, col := a.tcol + 1,
                           tokens := st1.tokens ++ a.toks ++ [endTok] })
  else none

/-- `tok.val = '' == val ? true : val` — the attribute value emission of
`src/src/lexer.ts` (line 254): boolean `true` when the trimmed value is empty. -/
def oldEmit (v : List Char) : LVal := if v = [] then .boolv true else .strv v

/-- `tok.val = val` — the attribute value emission of the `Lexer` variant in
`src/src/languages/JavaScript.ts` (line 409): always the string value. -/
def newEmit (v : List Char) : LVal := .strv v

/-- The longest prefix of non-newline characters (`[^\n]+`, greedy). -/
def nonNL (l : List Char) : List Char := l.takeWhile (fun c => c ≠ '\n')

/-- The match of the first text regex `/^(?:\| ?| )([^\n]+)/`: returns the
captured group and the full match length. -/
def textMatch (input : List Char) : Option (List Char × Nat) :=
  match input with
  | '|' :: rest =>
    match rest with
    | ' ' :: r2 =>
      let cap := nonNL r2
      if !cap.isEmpty then some (cap, 2 + cap.length)
      else
        let cap2 := nonNL rest
        if !cap2.isEmpty then some (cap2, 1 + cap2.length) else none
    | _ =>
      let cap := nonNL rest
      if !cap.isEmpty then some (cap, 1 + cap.length) else none
  | ' ' :: rest =>
    let cap := nonNL rest
    if !cap.isEmpty then some (cap, 1 + cap.length) else none
  | _ => none

/-- The match of the second text regex `/^\|?( )/`. -/
def textMatch2 (input : List Char) : Option (List Char × Nat) :=
  match input with
  | '|' :: ' ' :: _ => some ([' '], 2)
  | ' ' :: _ => some ([' '], 1)
  | _ => none

/-- `Lexer.text()`: scan with the two text regexes; on a match, consume it and
push a fresh `text` token whose column reflects the discounted capture. -/
def textStep (st : LexSt) : Option LexSt :=
  match (match textMatch st.input with
         | some r => some r
         | none => textMatch2 st.input) with
  | none => none
  | some (cap, len) =>
    let col1 := st.col + (len - cap.length)
    some { consume st len with
             tokens := st.tokens ++
               [{ type := "text", line := st.line, col := col1, val := some (.strv cap) }],
             col := col1 + cap.length }

/-- The match of the colon regex `/^: +/` (no capture group): the full length. -/
def colonMatch (input : List Char) : Option Nat :=
  match input with
  | ':' :: rest =>
    let sp := rest.takeWhile (fun c => c = ' ')
    if sp.isEmpty then none else some (1 + sp.length)
  | _ => none

/-- `Lexer.colon()`: scan `/^: +/` and push a `:` token (the regex has no
capture group, so the token carries no `val`). -/
def colonStep (st : LexSt) : Option LexSt :=
  match colonMatch st.input with
  | none => none
  | some len =>
    some { consume st len with
             tokens := st.tokens ++ [mkTok st ":" none],
             col := st.col + len }

/-- The message of `Lexer.fail()`: the first 5 unrecognized characters. -/
def failMsg (st : LexSt) : String :=
  "Unexpected text \"" ++ String.mk (st.input.take 5) ++ "\""

/-- `Lexer.advance()` of `src/src/lexer.ts` (lines 139-142): try `eos`, `tag`,
`code`, `attrs`, `text` in order, else `fail`.  (The `colon` recognizer is not
attempted by this version.) -/
def advance (o : Oracle) (st : LexSt) : Except String LexSt :=
  match eosStep st with
  | some st1 => .ok st1
  | none =>
  match tagStep st with
  | some st1 => .ok st1
  | none =>
  match codeStep o st with
  | some r => r
  | none =>
  match attrsStep oldEmit o st with
  | some r => r
  | none =>
  match textStep st with
  | some st1 => .ok st1
  | none => .error (failMsg st)

/-- The `while (!this.ended) this.advance()` loop of `Lexer.getTokens`,
driven by fuel (`none` means the fuel was exhausted). -/
def loopF (o : Oracle) : Nat → LexSt → Option (Except String LexSt)
  | 0, _ => none
  | fuel + 1, st =>
    if st.ended then some (.ok st)
    else
      match advance o st with
      | .error e => some (.error e)
      | .ok st1 => loopF o fuel st1

/-- The `Lexer` constructor: normalize the input, start at line 1, column 1,
with no tokens. -/
def initSt (code : List Char) : LexSt :=
  { input := normalizeInput code, line := 1, col := 1, tokens := [],
    ended := false, consumed := [] }

/-- The fuel that always suffices for `loopF` (each successful `advance`
consumes input or ends the lexing). -/
def lexFuel (code : List Char) : Nat := (normalizeInput code).length + 2

/-- Construct a `Lexer` on `code` and run the `getTokens` loop, returning the
final state. -/
def runLexer (o : Oracle) (code : List Char) : Option (Except String LexSt) :=
  loopF o (lexFuel code) (initSt code)

/-- `new Lexer(code).getTokens()`: the token list of the final state. -/
def getTokens (o : Oracle) (code : List Char) : Option (Except String (List Lexed)) :=
  (runLexer o code).map (fun r => r.map (fun st => st.tokens))

/-! ## The `C` parser class (contained in `src/test/languages/scss.test.ts`) -/

/-- The `vscode.SymbolKind` values used by the parsers. -/
inductive SymbolKind where
  | Class
  | Function
  | Variable
deriving DecidableEq, Repr

/-- Modelled from the spec: a `Symbols` parameter —
`Param = { name: string, type?: string, val: string }`; the `C` parser only
sets `name` and `type`. -/
structure SParam where
  name : List Char
  type : Option (List Char)
deriving DecidableEq, Repr

/-- Modelled from the spec: the `return` component of `Symbols`
(`{ present: bool, type?: string }`). -/
structure SReturn where
  present : Bool
  type : Option (List Char)
deriving DecidableEq, Repr

/-- Modelled from the spec: the `Symbols` accumulator —
`{ name, type, varType, params, return }`.  `addParameter` appends to `params`,
`getLastParameterIndex` is `params.length - 1`, and `getParameter` indexes
`params`. -/
structure Symbols where
  name : List Char
  type : Option SymbolKind
  varType : Option (List Char)
  params : List SParam
  ret : SReturn
deriving DecidableEq, Repr

/-- Modelled from the spec: the Parser state flags
(`done`, `expectName`, `expectParameter`, `expectParameterType`). -/
structure CFlags where
  done : Bool
  expectName : Bool
  expectParameter : Bool
  expectParameterType : Bool
deriving DecidableEq, Repr

/-- An acorn token as consumed by the `C` parser: its `value` (possibly
undefined) and its `type.label`. -/
structure AcornToken where
  value : Option (List Char)
  label : String
deriving DecidableEq, Repr

/-- JavaScript truthiness of `token.value` (undefined and `''` are falsy). -/
def truthy : Option (List Char) → Bool
  | none => false
  | some s => !s.isEmpty

/-- The `grammar` table from the `C` parser constructor. -/
def cGrammarList (cat : String) : List (List Char) :=
  if cat = "class" then ["struct".toList, "typedef".toList]
  else if cat = "function" then []
  else if cat = "modifiers" then
    ["unsigned".toList, "signed".toList, "struct".toList, "static".toList,
     "inline".toList, "const".toList, "auto".toList, "extern".toList,
     "complex".toList]
  else if cat = "types" then
    ["char".toList, "double".toList, "float".toList, "int".toList,
     "long".toList, "short".toList, "void".toList]
  else []

/-- Modelled from the spec: `Grammar.is(tokenValue, category)` — exact
membership test against the declared keyword list; an undefined value or an
undeclared category yields `false`. -/
def grammarIs (v : Option (List Char)) (cat : String) : Bool :=
  match v with
  | none => false
  | some s => s ∈ cGrammarList cat

/-- The identifier pattern of the `C` grammar,
`'^[a-zA-Z_][a-zA-Z0-9_]*$'`, used by the modelled `isName`. -/
def cIsName (v : Option (List Char)) : Bool :=
  match v with
  | some (c :: rest) =>
    (c.isAlpha || c = '_') && rest.all (fun d => d.isAlpha || d.isDigit || d = '_')
  | _ => false

/-- `C.parseClass(token, symbols)`: a token in the `class` category sets
`symbols.name = 'struct'`, `symbols.type = Class`, and `done = true`. -/
def parseClass (tok : AcornToken) (f : CFlags) (sym : Symbols) : CFlags × Symbols :=
  if grammarIs tok.value "class" then
    ({ f with done := true },
     { sym with name := "struct".toList, type := some .Class })
  else (f, sym)

/-- `C.parseFunction(token, symbols)`: an opening parenthesis marks a function,
copies `varType` into the return type, and expects parameters. -/
def parseFunction (tok : AcornToken) (f : CFlags) (sym : Symbols) : CFlags × Symbols :=
  if tok.label = "(" then
    ({ f with expectParameter := true },
     { sym with type := some .Function, ret := { sym.ret with type := sym.varType } })
  else (f, sym)

/-- `C.parseParameters(token, symbols)` translated line by line: while the
symbol is a function and a parameter is expected, a `types` token appends a
new `Param` and flips `expectParameterType`; any valued token then renames the
last `Param`; a `)` label clears `expectParameter`. -/
def parseParameters (tok : AcornToken) (f : CFlags) (sym : Symbols) : CFlags × Symbols :=
  if sym.type = some .Function && f.expectParameter then
    let fs1 :=
      if truthy tok.value && grammarIs tok.value "types" && f.expectParameter then
        ({ f with expectParameterType := true },
         { sym with params := sym.params ++ [{ name := [], type := tok.value }] })
      else (f, sym)
    let f1 := fs1.1
    let sym1 := fs1.2
    let sym2 :=
      if f1.expectParameterType && truthy tok.value then
        match sym1.params.get? (sym1.params.length - 1) with
        | some p =>
          let renamed := sym1.params.set (sym1.params.length - 1) { p with name := tok.value.getD [] }
          { sym1 with params := renamed }
        | none => sym1
      else sym1
    if tok.label = ")" then ({ f1 with expectParameter := false }, sym2)
    else (f1, sym2)
  else (f, sym)

/-- `C.parseVariable(token, symbols)`: a `types` token with no assigned kind
starts a variable; a following identifier supplies the name. -/
def parseVariable (tok : AcornToken) (f : CFlags) (sym : Symbols) : CFlags × Symbols :=
  if grammarIs tok.value "types" && sym.type = none then
    ({ f with expectName := true },
     { sym with varType := tok.value, type := some .Variable })
  else if f.expectName && cIsName tok.value then
    ({ f with expectName := false }, { sym with name := tok.value.getD [] })
  else (f, sym)

/-- Modelled from the spec: the Parser base token loop (§4.2 steps 2 and 8),
missing from `src/` — each token is dispatched to `parseClass`,
`parseFunction`, the parameter accumulator, then `parseVariable`, and the loop
returns as soon as `done` is set. -/
def processTokens : List AcornToken → CFlags → Symbols → CFlags × Symbols
  | [], f, sym => (f, sym)
  | t :: ts, f, sym =>
    if f.done then (f, sym)
    else
      let r1 := parseClass t f sym
      if r1.1.done then r1
      else
        let r2 := parseFunction t r1.1 r1.2
        let r3 := parseParameters t r2.1 r2.2
        let r4 := parseVariable t r3.1 r3.2
        processTokens ts r4.1 r4.2

/-! ## `JavaScript.tokenize` (`src/src/languages/JavaScript.ts`, lines 44-119) -/

/-- A `Param` as built by `JavaScript.tokenize` from an `attribute` token
(lines 98-101): `{ name: lexed[i].name, val: lexed[i].val }`. -/
structure JsParam where
  name : Option (List Char)
  val : Option LVal
deriving DecidableEq, Repr

/-- The `return` component of the `Tokens` object (`{ present: true }`). -/
structure JsRet where
  present : Bool
deriving DecidableEq, Repr

/-- The `Tokens` object built by `JavaScript.tokenize`
(`{ name, type, params, return }`). -/
structure JsTokens where
  name : Option LVal
  type : Option LVal
  params : List JsParam
  ret : JsRet
deriving DecidableEq, Repr

/-- The default `tokens` argument of `JavaScript.tokenize`:
`{ name: '', type: '', params: [], return: { present: true } }`. -/
def defaultJsTokens : JsTokens :=
  { name := some (.strv []), type := some (.strv []), params := [], ret := { present := true } }

/-- Modelled from the spec: the Parser base helpers used by
`JavaScript.tokenize` but missing from `src/` — `this.lexer` (lex the line via
§4.1), `this.matchesGrammer` (Grammar membership, §4.3), and the prototype
regular expression built from the `identifier` pattern (its `exec` groups 1
and 2, or `none` when it does not match).  `tokenize` is parametric in them,
so the theorems hold for every implementation of the missing helpers. -/
structure JsEnv where
  lexFn : List Char → Except String (List Lexed)
  matchesFn : Option LVal → Option String → Bool
  protoFn : List Char → Option (List Char × List Char)

/-- `Parser.findByType(type, lexed)`: modelled from the spec — the first lexed
token of the given type, if any. -/
def findByType (ty : String) (ls : List Lexed) : Option Lexed :=
  ls.find? (fun t => t.type = ty)

/-- JavaScript `String.replace` with a string pattern: replace the first
occurrence of `pat` (used for `current.val.replace('= ', '')`). -/
def replaceFirst (s pat : List Char) : List Char :=
  if pat.isEmpty then s
  else
    match s with
    | [] => []
    | c :: rest =>
      if pat.isPrefixOf s then s.drop pat.length
      else c :: replaceFirst rest pat

/-- `^[a-zA-Z_$0-9]` — the test applied to `current.val.substr(0, 1)` before
the recursive continuation. -/
def jsIdentHead (l : List Char) : Bool :=
  match l.head? with
  | some c => c.isAlpha || c.isDigit || c = '_' || c = '$'
  | none => false

/-- The three-way `if/else if/else if` classification at the top of
`JavaScript.tokenize` (lines 69-89): the grammar-keyword branch, the
prototype-function branch (which also rewrites the `text` token's value), and
the name-from-`next` branch.  Returns the updated `tokens`, `next`, and
`current`. -/
def jsBranch (env : JsEnv) (code : List Char) (next : Option LVal) (toks : JsTokens)
    (tok0 : Lexed) (current : Option Lexed) :
    Except String (JsTokens × Option LVal × Option Lexed) :=
  if env.matchesFn tok0.val (some "function") ||
     env.matchesFn tok0.val (some "class") then
    .ok ({ toks with type := tok0.val }, tok0.val, current)
  else
    match env.protoFn code with
    | some (_r1, r2) =>
      match current with
      | none => .error "TypeError: current is undefined"
      | some c =>
        match c.val with
        | some (.strv s) =>
          .ok ({ toks with type := some (.strv "function".toList),
                           name := some (.strv r2) },
               next,
               some { c with val := some (.strv (replaceFirst s "= ".toList)) })
        | _ => .error "TypeError: current.val.replace is not a function"
    | none =>
      if env.matchesFn next none then
        .ok ({ toks with name := tok0.val }, next, current)
      else .ok (toks, next, current)

/-- The parameter harvest of `JavaScript.tokenize` (lines 92-106): when a
`start-attributes` token exists, append a `Param` for every `attribute`
token. -/
def jsParams (lexed : List Lexed) (toks1 : JsTokens) : JsTokens :=
  let attrParams :=
    (lexed.filter (fun t => t.type = "attribute")).map
      (fun t => ({ name := t.name, val := t.val } : JsParam))
  if (findByType "start-attributes" lexed).isSome then
    { toks1 with params := toks1.params ++ attrParams }
  else toks1

/-- `JavaScript.tokenize(code, next, tokens)` translated branch by branch;
recursion is fuel-bounded (`none` means the fuel was exhausted), and property
accesses on `undefined` become errors, as they throw in JavaScript. -/
def tokenizeJS (env : JsEnv) : Nat → Option (List Char) → Option LVal → JsTokens →
    Option (Except String JsTokens)
  | 0, _, _, _ => none
  | fuel + 1, code?, next, toks =>
    match code? with
    | none => some (.ok toks)
    | some code =>
      match env.lexFn code with
      | .error e => some (.error e)
      | .ok lexed =>
        match lexed.get? 0 with
        | none => some (.error "TypeError: lexed[0] is undefined")
        | some tok0 =>
          match jsBranch env code next toks tok0 (findByType "text" lexed) with
          | .error e => some (.error e)
          | .ok (toks1, next1, current1) =>
            let toks2 := jsParams lexed toks1
            match current1, findByType "eos" lexed with
            | some c, some e =>
              if c.col < e.col then
                match c.val with
                | some (.strv s) =>
                  if jsIdentHead (s.take 1) then
                    match tokenizeJS env fuel (some s) next1 toks2 with
                    | none => none
                    | some (.error err) => some (.error err)
                    | some (.ok r) => some (.ok r)
                  else some (.ok toks2)
                | _ => some (.error "TypeError: current.val.substr is not a function")
              else some (.ok toks2)
            | _, _ => some (.error "TypeError: cannot read col of undefined")

/-! ## Auxiliary definitions used in the theorems -/

/-- A trivial expression oracle accepting everything, used to instantiate the
abstract `is-expression` validator on concrete runs that never consult it. -/
def oracleTrue : Oracle := fun _ => true

/-- The structural view of a token compared across lexer runs: its `type`,
`val`, `line` and `col` fields. -/
def tokenView (t : Lexed) : String × Option LVal × Nat × Nat := (t.type, t.val, t.line, t.col)

/-! ## Structural lemmas about the recognizers -/

theorem consume_concat (st : LexSt) (n : Nat) :
    (consume st n).consumed ++ (consume st n).input = st.consumed ++ st.input := by
  simp [consume]

theorem consume_input_lt (st : LexSt) (n : Nat) (h1 : st.input ≠ []) (h2 : 0 < n) :
    (consume st n).input.length < st.input.length := by
  have hl : st.input.length ≠ 0 := by simpa using h1
  simp only [consume, List.length_drop]
  omega

theorem eosStep_some {st st1 : LexSt} (h : eosStep st = some st1) :
    st.input = [] ∧
    st1 = { st with tokens := st.tokens ++ [mkTok st "eos" none], ended := true } := by
  unfold eosStep at h
  split at h
  · next hemp =>
    refine ⟨by simpa using hemp, ?_⟩
    injection h with h
    exact h.symm
  · cases h

theorem tagMatch_some {input m} (h : tagMatch input = some m) :
    0 < m.length ∧ input ≠ [] := by
  unfold tagMatch at h
  split at h
  · cases h
  · dsimp only [] at h
    split at h
    · injection h with h
      subst h
      simp
    · cases h

theorem tagStep_some {st st1 : LexSt} (h : tagStep st = some st1) :
    st1.ended = st.ended ∧ st1.input.length < st.input.length ∧
    st1.consumed ++ st1.input = st.consumed ++ st.input ∧
    ∃ t, st1.tokens = st.tokens ++ [t] ∧ t.type = "tag" := by
  unfold tagStep at h
  split at h
  · cases h
  · next m hm =>
    injection h with h
    subst h
    obtain ⟨hpos, hne⟩ := tagMatch_some hm
    refine ⟨by simp [consume], consume_input_lt st m.length hne hpos, ?_, ?_⟩
    · simp [consume]
    · exact ⟨mkTok st "tag" (some (.strv m)), rfl, rfl⟩

theorem codeFlags_some {input flags rest} (h : codeFlags input = some (flags, rest)) :
    0 < flags.length ∧ input ≠ [] := by
  unfold codeFlags at h
  split at h <;> (try cases h) <;> exact ⟨by simp, by simp⟩

theorem codeMatch_some {input flags codeCap full}
    (h : codeMatch input = some (flags, codeCap, full)) :
    0 < full ∧ input ≠ [] := by
  unfold codeMatch at h
  split at h
  · cases h
  · next flags1 rest1 hfl =>
    obtain ⟨hpos, hne⟩ := codeFlags_some hfl
    dsimp only [] at h
    split at h
    · cases h
    · simp only [Option.some.injEq, Prod.mk.injEq] at h
      obtain ⟨h1, h2, h3⟩ := h
      refine ⟨?_, hne⟩
      omega

theorem codeStep_ok {o : Oracle} {st st1 : LexSt} (h : codeStep o st = some (.ok st1)) :
    st1.ended = st.ended ∧ st1.input.length < st.input.length ∧
    st1.consumed ++ st1.input = st.consumed ++ st.input ∧
    ∃ t, st1.tokens = st.tokens ++ [t] ∧ t.type = "code" := by
  unfold codeStep at h
  split at h
  · cases h
  · next flags codeCap full hcm =>
    obtain ⟨hpos, hne⟩ := codeMatch_some hcm
    dsimp only [] at h
    split at h
    · cases h
    · simp only [Option.some.injEq] at h
      injection h with h
      subst h
      refine ⟨by simp [consume], consume_input_lt st full hne hpos, ?_, ?_⟩
      · simp [consume]
      · exact ⟨_, rfl, rfl⟩

theorem textMatch_some {input cap len} (h : textMatch input = some (cap, len)) :
    0 < len ∧ input ≠ [] := by
  unfold textMatch at h
  split at h <;> (try dsimp only [] at h) <;>
    (repeat' split at h) <;>
    (try cases h) <;> exact ⟨by simp, by simp⟩

theorem textMatch2_some {input cap len} (h : textMatch2 input = some (cap, len)) :
    0 < len ∧ input ≠ [] := by
  unfold textMatch2 at h
  split at h <;> (try cases h) <;> exact ⟨by simp, by simp⟩

theorem textStep_some {st st1 : LexSt} (h : textStep st = some st1) :
    st1.ended = st.ended ∧ st1.input.length < st.input.length ∧
    st1.consumed ++ st1.input = st.consumed ++ st.input ∧
    ∃ t, st1.tokens = st.tokens ++ [t] ∧ t.type = "text" := by
  unfold textStep at h
  split at h
  · cases h
  · next cap len hm =>
    have hpos : 0 < len ∧ st.input ≠ [] := by
      cases h1 : textMatch st.input with
      | some r =>
        rw [h1] at hm
        injection hm with hm
        subst hm
        exact textMatch_some h1
      | none =>
        rw [h1] at hm
        exact textMatch2_some hm
    dsimp only [] at h
    injection h with h
    subst h
    refine ⟨by simp [consume], consume_input_lt st len hpos.2 hpos.1, ?_, ?_⟩
    · simp [consume]
    · exact ⟨_, rfl, rfl⟩

theorem nlCheck_toks (s : List Char) (a : AttrSt) : (nlCheck s a).toks = a.toks := by
  unfold nlCheck
  split
  · split <;> rfl
  · rfl

theorem attrsBody_toks {emit : List Char → LVal} {o : Oracle} {attrStr : List Char}
    {a0 a1 : AttrSt} (h : attrsBody emit o attrStr a0 = .ok a1) :
    a1.toks = a0.toks ∨ ∃ t, a1.toks = a0.toks ++ [t] ∧ t.type = "attribute" := by
  simp only [attrsBody] at h
  split at h
  · split at h
    · cases h
    · injection h with h
      subst h
      right
      rw [nlCheck_toks]
      exact ⟨_, rfl, rfl⟩
  · split at h <;>
      (repeat' split at h) <;>
      (try cases h) <;> left <;> simp [nlCheck_toks]

theorem attrsLoop_toks {emit : List Char → LVal} {o : Oracle} {attrStr : List Char} :
    ∀ {fuel : Nat} {a a1 : AttrSt}, attrsLoop emit o attrStr fuel a = .ok a1 →
    ∃ ts, a1.toks = a.toks ++ ts ∧ ∀ t ∈ ts, t.type = "attribute" := by
  intro fuel
  induction fuel with
  | zero => intro a a1 h; cases h
  | succ n ih =>
    intro a a1 h
    unfold attrsLoop at h
    split at h
    · split at h
      · cases h
      · next a2 hbody =>
        obtain ⟨ts2, hts2, hall2⟩ := ih h
        rcases attrsBody_toks hbody with h0 | ⟨t, ht, hty⟩
        · exact ⟨ts2, by simp at hts2; rw [hts2, h0], hall2⟩
        · refine ⟨[t] ++ ts2, ?_, ?_⟩
          · simp at hts2
            rw [hts2, ht]
            simp
          · intro u hu
            rcases List.mem_append.mp hu with h1 | h2
            · simp at h1
              subst h1
              exact hty
            · exact hall2 u h2
    · injection h with h
      subst h
      exact ⟨[], by simp, by simp⟩

theorem attrsStep_ok {emit : List Char → LVal} {o : Oracle} {st st1 : LexSt}
    (h : attrsStep emit o st = some (.ok st1)) :
    st1.ended = st.ended ∧ st1.input.length < st.input.length ∧
    st1.consumed ++ st1.input = st.consumed ++ st.input ∧
    ∃ ts, st1.tokens = st.tokens ++ ts ∧ ∀ t ∈ ts, t.type ≠ "eos" := by
  unfold attrsStep at h
  split at h
  · next hhead =>
    have hne : st.input ≠ [] := by
      intro he
      rw [he] at hhead
      cases hhead
    injection h with h
    split at h
    · cases h
    · next idx hpu =>
      dsimp only [] at h
      split at h
      · cases h
      · split at h
        · cases h
        · next a hloop =>
          injection h with h
          subst h
          obtain ⟨ts, hts, hall⟩ := attrsLoop_toks hloop
          simp [attrsInit] at hts
          refine ⟨by simp [consume], ?_, by simp [consume], ?_⟩
          · exact consume_input_lt _ (idx + 1) hne (by omega)
          · refine ⟨[mkTok st "start-attributes" none] ++ a.toks ++
              [{ type := "end-attributes",
                 line := st.line + ((st.input.drop 1).take (idx - 1)).count '\n',
                 col := a.tcol }], ?_, ?_⟩
            · simp [consume]
            · intro u hu
              simp at hu
              rcases hu with h1 | h2 | h3
              · rw [h1]; simp [mkTok]
              · rw [hts] at h2
                have := hall u h2
                rw [this]
                simp
              · rw [h3]; simp
  · cases h

/-- Everything a successful `advance` can do: either the input was empty and
the `eos` transition fires (pushing exactly the `eos` token and ending the
lexing), or some recognizer consumed at least one character, preserved the
`consumed ++ input` concatenation, and appended only non-`eos` tokens. -/
theorem advance_ok {o : Oracle} {st st1 : LexSt} (h : advance o st = .ok st1) :
    (st.input = [] ∧
      st1 = { st with tokens := st.tokens ++ [mkTok st "eos" none], ended := true })
    ∨ (st1.ended = st.ended ∧ st1.input.length < st.input.length ∧
       st1.consumed ++ st1.input = st.consumed ++ st.input ∧
       ∃ ts, st1.tokens = st.tokens ++ ts ∧ ∀ t ∈ ts, t.type ≠ "eos") := by
  unfold advance at h
  cases h1 : eosStep st with
  | some s =>
    rw [h1] at h
    injection h with h
    subst h
    exact Or.inl (eosStep_some h1)
  | none =>
    rw [h1] at h
    cases h2 : tagStep st with
    | some s =>
      rw [h2] at h
      injection h with h
      subst h
      obtain ⟨he, hl, hc, t, ht, hty⟩ := tagStep_some h2
      refine Or.inr ⟨he, hl, hc, [t], ht, ?_⟩
      intro u hu
      simp at hu
      rw [hu, hty]
      simp
    | none =>
      rw [h2] at h
      cases h3 : codeStep o st with
      | some r =>
        rw [h3] at h
        dsimp only [] at h
        subst h
        obtain ⟨he, hl, hc, t, ht, hty⟩ := codeStep_ok h3
        refine Or.inr ⟨he, hl, hc, [t], ht, ?_⟩
        intro u hu
        simp at hu
        rw [hu, hty]
        simp
      | none =>
        rw [h3] at h
        cases h4 : attrsStep oldEmit o st with
        | some r =>
          rw [h4] at h
          dsimp only [] at h
          subst h
          obtain ⟨he, hl, hc, ts, ht, hall⟩ := attrsStep_ok h4
          exact Or.inr ⟨he, hl, hc, ts, ht, hall⟩
        | none =>
          rw [h4] at h
          cases h5 : textStep st with
          | some s =>
            rw [h5] at h
            injection h with h
            subst h
            obtain ⟨he, hl, hc, t, ht, hty⟩ := textStep_some h5
            refine Or.inr ⟨he, hl, hc, [t], ht, ?_⟩
            intro u hu
            simp at hu
            rw [hu, hty]
            simp
          | none =>
            rw [h5] at h
            cases h

/-- A successful `getTokens` loop run ends the lexing with all input consumed
and appends a token block ending in exactly one `eos` token. -/
theorem loopF_ok {o : Oracle} :
    ∀ {fuel : Nat} {st stF : LexSt}, loopF o fuel st = some (.ok stF) →
      st.ended = false →
      stF.ended = true ∧ stF.input = [] ∧
      stF.consumed ++ stF.input = st.consumed ++ st.input ∧
      ∃ ts tEos, stF.tokens = st.tokens ++ ts ++ [tEos] ∧ tEos.type = "eos" ∧
        ∀ t ∈ ts, t.type ≠ "eos" := by
  intro fuel
  induction fuel with
  | zero => intro st stF h hne; cases h
  | succ n ih =>
    intro st stF h hne
    unfold loopF at h
    rw [if_neg (by simp [hne])] at h
    cases hadv : advance o st with
    | error e => rw [hadv] at h; cases h
    | ok st1 =>
      rw [hadv] at h
      rcases advance_ok hadv with ⟨hemp, hst1⟩ | ⟨he, hl, hc, ts0, ht0, hall0⟩
      · subst hst1
        cases n with
        | zero => cases h
        | succ m =>
          unfold loopF at h
          rw [if_pos rfl] at h
          injection h with h
          injection h with h
          subst h
          refine ⟨rfl, hemp, rfl, [], mkTok st "eos" none, by simp, rfl, by simp⟩
      · have hne1 : st1.ended = false := he.trans hne
        obtain ⟨hF1, hF2, hF3, ts1, tEos, hFt, hFty, hFall⟩ := ih h hne1
        refine ⟨hF1, hF2, by rw [hF3, hc], ts0 ++ ts1, tEos, ?_, hFty, ?_⟩
        · rw [hFt, ht0]
          simp
        · intro u hu
          rcases List.mem_append.mp hu with h1 | h2
          · exact hall0 u h1
          · exact hFall u h2

/-- Fuel sufficiency for the `getTokens` loop: `input.length + 2` steps always
reach a result, because each successful `advance` consumes input or ends. -/
theorem loopF_fuel {o : Oracle} :
    ∀ (n : Nat) (st : LexSt), st.input.length ≤ n → (loopF o (n + 2) st).isSome := by
  intro n
  induction n with
  | zero =>
    intro st hl
    unfold loopF
    split
    · simp
    · cases hadv : advance o st with
      | error e => simp
      | ok st1 =>
        rcases advance_ok hadv with ⟨hemp, hst1⟩ | ⟨he, hlt, _, _⟩
        · subst hst1
          unfold loopF
          rw [if_pos rfl]
          simp
        · omega
  | succ m ih =>
    intro st hl
    unfold loopF
    split
    · simp
    · cases hadv : advance o st with
      | error e => simp
      | ok st1 =>
        rcases advance_ok hadv with ⟨hemp, hst1⟩ | ⟨he, hlt, _, _⟩
        · subst hst1
          unfold loopF
          rw [if_pos rfl]
          simp
        · exact ih st1 (by omega)

/-! ## Claim theorems -/

/-- Claim C1: for every input string on which `Lexer.getTokens` completes
without raising, the resulting token sequence contains exactly one token of
type `eos` and it is the last element; in particular, the empty input yields a
single-element sequence containing only the `eos` token. -/
theorem claim1_eos_unique_last (o : Oracle) (code : List Char) (toks : List Lexed)
    (h : getTokens o code = some (.ok toks)) :
    (toks.filter (fun t => t.type = "eos")).length = 1 ∧
    (∃ t, toks.getLast? = some t ∧ t.type = "eos") ∧
    (code = [] → toks = [{ type := "eos", line := 1, col := 1 }]) := by
  have hrun : ∃ stF, runLexer o code = some (.ok stF) ∧ stF.tokens = toks := by
    unfold getTokens at h
    cases hr : runLexer o code with
    | none => rw [hr] at h; cases h
    | some r =>
      rw [hr] at h
      cases r with
      | error e => simp [Except.map] at h
      | ok stF =>
        simp [Except.map] at h
        exact ⟨stF, rfl, h⟩
  obtain ⟨stF, hr, htoks⟩ := hrun
  obtain ⟨hF1, hF2, hF3, ts, tEos, hFt, hFty, hFall⟩ :=
    loopF_ok (show loopF o (lexFuel code) (initSt code) = some (.ok stF) from hr) rfl
  have htl : toks = ts ++ [tEos] := by
    rw [← htoks, hFt]
    simp [initSt]
  have hfilter : ts.filter (fun t => t.type = "eos") = [] := by
    rw [List.filter_eq_nil_iff]
    intro a ha
    simp [hFall a ha]
  refine ⟨?_, ?_, ?_⟩
  · rw [htl, List.filter_append, hfilter]
    simp [hFty]
  · refine ⟨tEos, ?_, hFty⟩
    rw [htl]
    exact List.getLast?_concat ts
  · intro hc
    subst hc
    have hempty : getTokens o [] =
        some (.ok [{ type := "eos", line := 1, col := 1 }]) := rfl
    rw [hempty] at h
    injection h with h
    injection h with h
    exact h.symm

theorem claim1_witness :
    getTokens oracleTrue [] = some (.ok [{ type := "eos", line := 1, col := 1 }]) ∧
    (([{ type := "eos", line := 1, col := 1 }] : List Lexed).filter
      (fun t => t.type = "eos")).length = 1 :=
  ⟨rfl, (claim1_eos_unique_last oracleTrue [] _ rfl).1⟩

/-- Claim C2: lexing is total and terminating — for every input string the
`getTokens` loop reaches a result (an error or a token list) within
`input.length + 2` iterations, because every successful `advance` step either
ends the lexing or consumes at least one character of the remaining input. -/
theorem claim2_total_terminating :
    (∀ (o : Oracle) (code : List Char), ∃ r, runLexer o code = some r) ∧
    (∀ (o : Oracle) (st st1 : LexSt), advance o st = .ok st1 →
      st1.ended = true ∨ st1.input.length < st.input.length) := by
  constructor
  · intro o code
    have h := loopF_fuel (o := o) ((initSt code).input.length) (initSt code) le_rfl
    rw [Option.isSome_iff_exists] at h
    exact h
  · intro o st st1 h
    rcases advance_ok h with ⟨_, hst1⟩ | ⟨_, hl, _⟩
    · subst hst1
      exact Or.inl rfl
    · exact Or.inr hl

def stepWitnessPre : LexSt := initSt ['a']

def stepWitnessPost : LexSt :=
  { input := [], line := 1, col := 2,
    tokens := [{ type := "tag", line := 1, col := 1, val := some (.strv ['a']) }],
    ended := false, consumed := ['a'] }

theorem claim2_witness :
    (∃ r, runLexer oracleTrue ['a'] = some r) ∧
    (stepWitnessPost.ended = true ∨
      stepWitnessPost.input.length < stepWitnessPre.input.length) :=
  ⟨claim2_total_terminating.1 oracleTrue ['a'],
   claim2_total_terminating.2 oracleTrue stepWitnessPre stepWitnessPost (by decide)⟩

/-- Claim C3: round-trip coverage — on every successful run, the ghost record
of all characters removed by `consume` equals the newline-normalized original
input exactly (nothing dropped or duplicated, and the final input is empty);
moreover the `eos` step consumes nothing. -/
theorem claim3_roundtrip (o : Oracle) (code : List Char) (stF : LexSt)
    (h : runLexer o code = some (.ok stF)) :
    stF.consumed = normalizeInput code ∧ stF.input = [] ∧
    ∀ st st1 : LexSt, eosStep st = some st1 →
      st1.consumed = st.consumed ∧ st1.input = st.input := by
  obtain ⟨hF1, hF2, hF3, _⟩ :=
    loopF_ok (show loopF o (lexFuel code) (initSt code) = some (.ok stF) from h) rfl
  refine ⟨?_, hF2, ?_⟩
  · rw [hF2] at hF3
    simpa [initSt] using hF3
  · intro st st1 hstep
    obtain ⟨_, hrec⟩ := eosStep_some hstep
    subst hrec
    exact ⟨rfl, rfl⟩

def roundtripFinal : LexSt :=
  { input := [], line := 1, col := 2,
    tokens := [{ type := "tag", line := 1, col := 1, val := some (.strv ['a']) },
               { type := "eos", line := 1, col := 2 }],
    ended := true, consumed := ['a'] }

theorem claim3_witness :
    roundtripFinal.consumed = normalizeInput ['a'] ∧ roundtripFinal.input = [] ∧
    ∀ st st1 : LexSt, eosStep st = some st1 →
      st1.consumed = st.consumed ∧ st1.input = st.input :=
  claim3_roundtrip oracleTrue ['a'] roundtripFinal (by decide)

/-- Claim C9: lexing is deterministic — two runs of `getTokens` on the same
input produce structurally identical token sequences (the same `type`, `val`,
`line`, `col` in the same order). -/
theorem claim9_deterministic (o : Oracle) (code : List Char) (t1 t2 : List Lexed)
    (h1 : getTokens o code = some (.ok t1)) (h2 : getTokens o code = some (.ok t2)) :
    t1.map tokenView = t2.map tokenView := by
  rw [h1] at h2
  injection h2 with h2
  injection h2 with h2
  rw [h2]

theorem claim9_witness :
    ([{ type := "tag", line := 1, col := 1, val := some (.strv ['a']) },
      { type := "eos", line := 1, col := 2 }] : List Lexed).map tokenView =
    ([{ type := "tag", line := 1, col := 1, val := some (.strv ['a']) },
      { type := "eos", line := 1, col := 2 }] : List Lexed).map tokenView :=
  claim9_deterministic oracleTrue ['a'] _ _ (by decide) (by decide)

/-- Counterexample to claim C6: `src/src/lexer.ts`'s `advance` never attempts
the `colon` recognizer, so the input `": "` raises the lex failure
`Unexpected text ": "` instead of yielding a colon token. -/
theorem claim6_counterexample :
    getTokens oracleTrue [':', ' '] = some (.error "Unexpected text \": \"") ∧
    ∀ toks, getTokens oracleTrue [':', ' '] ≠ some (.ok toks) := by
  refine ⟨by decide, ?_⟩
  intro toks h
  rw [show getTokens oracleTrue [':', ' '] =
      some (.error "Unexpected text \": \"") from by decide] at h
  cases h

/-- Claim C6 as amended: `Lexer.advance` of `src/src/lexer.ts` attempts `eos`,
`tag`, `code`, `attrs`, `text` in that fixed order and, when none matches,
raises the syntax error reporting the first 5 unrecognized characters; the
`colon` recognizer (which would match a leading `": "` run and push a colon
token) is defined but never attempted, so such inputs fail. -/
theorem claim6_amended (o : Oracle) (rest : List Char) :
    getTokens o (':' :: ' ' :: rest) =
      some (.error (failMsg (initSt (':' :: ' ' :: rest)))) ∧
    ∃ st1, colonStep (initSt (':' :: ' ' :: rest)) = some st1 ∧
      st1.tokens = [{ type := ":", line := 1, col := 1 }] := by
  exact ⟨rfl, ⟨_, rfl, rfl⟩⟩

/-- Claim C8: an attribute list whose opening `(` has no matching `)` makes
lexing raise the bracket error and terminate (the error is returned by the
loop; the attribute list is never turned into tokens). -/
theorem claim8_unbalanced_bracket (o : Oracle) (st : LexSt) (m : String)
    (h1 : st.input.head? = some '(')
    (h2 : cpParseUntilGo ')' (st.input.drop 1) 1 cpDefault = .error m)
    (h3 : st.ended = false) :
    advance o st = .error m ∧
    ∀ fuel : Nat, loopF o (fuel + 1) st = some (.error m) := by
  have hadv : advance o st = .error m := by
    obtain ⟨c, tail, hct⟩ : ∃ c tail, st.input = c :: tail := by
      cases hi : st.input with
      | nil => rw [hi] at h1; cases h1
      | cons c tail => exact ⟨c, tail, rfl⟩
    have hc : c = '(' := by
      rw [hct] at h1
      injection h1 with h1
    subst hc
    unfold advance
    have heos : eosStep st = none := by
      unfold eosStep
      rw [if_neg]
      simp [hct]
    have htag : tagStep st = none := by
      unfold tagStep
      rw [hct]
      simp [tagMatch, tagEdge]
    have hcode : codeStep o st = none := by
      unfold codeStep
      rw [hct]
      simp [codeMatch, codeFlags]
    have htext : textStep st = none := by
      unfold textStep
      rw [hct]
      simp [textMatch, textMatch2]
    have hattrs : attrsStep oldEmit o st = some (.error m) := by
      unfold attrsStep
      rw [if_pos h1]
      have : cpParseUntil st.input ')' 1 = .error m := by
        unfold cpParseUntil
        exact h2
      rw [this]
    rw [heos, htag, hcode, hattrs]
  refine ⟨hadv, ?_⟩
  intro fuel
  unfold loopF
  rw [if_neg (by simp [h3]), hadv]

def bracketWitnessSt : LexSt :=
  { input := "(a, b".toList, line := 1, col := 4,
    tokens := [{ type := "tag", line := 1, col := 1, val := some (.strv "foo".toList) }],
    ended := false, consumed := "foo".toList }

theorem claim8_witness :
    advance oracleTrue bracketWitnessSt = .error cpEndMsg ∧
    ∀ fuel : Nat, loopF oracleTrue (fuel + 1) bracketWitnessSt =
      some (.error cpEndMsg) :=
  claim8_unbalanced_bracket oracleTrue bracketWitnessSt cpEndMsg rfl (by decide) rfl

/-- Claim C7: for every token whose value is in the Grammar's `class` category
(e.g. `struct` under the C grammar), `parseClass` sets `Symbols.type` to
`Class`, sets `Symbols.name` to `'struct'` (the C subclass's rule), and sets
`done`, and the token loop processes no further tokens for the declaration
(the result is independent of the remaining tokens). -/
theorem claim7_parse_class (t : AcornToken) (ts : List AcornToken) (f : CFlags)
    (sym : Symbols) (h1 : f.done = false) (h2 : grammarIs t.value "class" = true) :
    parseClass t f sym =
      ({ f with done := true },
       { sym with name := "struct".toList, type := some .Class }) ∧
    processTokens (t :: ts) f sym =
      ({ f with done := true },
       { sym with name := "struct".toList, type := some .Class }) := by
  have hpc : parseClass t f sym =
      ({ f with done := true },
       { sym with name := "struct".toList, type := some .Class }) := by
    unfold parseClass
    rw [if_pos h2]
  refine ⟨hpc, ?_⟩
  unfold processTokens
  rw [if_neg (by simp [h1])]
  dsimp only []
  rw [hpc]
  simp

theorem claim7_witness :
    processTokens
        [{ value := some "struct".toList, label := "name" },
         { value := some "Foo".toList, label := "name" }]
        { done := false, expectName := false, expectParameter := false,
          expectParameterType := false }
        { name := [], type := none, varType := none, params := [],
          ret := { present := true, type := none } } =
      ({ done := true, expectName := false, expectParameter := false,
         expectParameterType := false },
       { name := "struct".toList, type := some .Class, varType := none, params := [],
         ret := { present := true, type := none } }) :=
  (claim7_parse_class
    { value := some "struct".toList, label := "name" }
    [{ value := some "Foo".toList, label := "name" }]
    { done := false, expectName := false, expectParameter := false,
      expectParameterType := false }
    { name := [], type := none, varType := none, params := [],
      ret := { present := true, type := none } }
    rfl (by decide)).2

/-- Counterexample to claim C5: in `C.parseParameters`, the name-assignment
branch runs in the same invocation that starts a new `Param`, so processing
the single type token `int` (with `type = Function` and `expectParameter`)
leaves a `Param` named `int` — the name was supplied by the type token itself,
not left empty for a following identifier token. -/
theorem claim5_counterexample :
    parseParameters { value := some "int".toList, label := "name" }
        { done := false, expectName := false, expectParameter := true,
          expectParameterType := false }
        { name := [], type := some .Function, varType := none, params := [],
          ret := { present := true, type := none } } =
      ({ done := false, expectName := false, expectParameter := true,
         expectParameterType := true },
       { name := [], type := some .Function, varType := none,
         params := [{ name := "int".toList, type := some "int".toList }],
         ret := { present := true, type := none } }) ∧
    "int".toList ≠ ([] : List Char) := by
  exact ⟨by decide, by decide⟩

/-- Claim C5 as amended: while `Symbols.type` is `Function` and
`expectParameter` is set, a token whose value is in the `types` category
appends a new `Param` with that type, sets `expectParameterType`, and
immediately assigns the type token's own value as the `Param`'s name; a
following non-type token with a non-empty value overwrites that name; and a
closing-parenthesis token clears `expectParameter`. -/
theorem claim5_amended :
    (∀ (t : AcornToken) (f : CFlags) (sym : Symbols) (v : List Char),
      sym.type = some .Function → f.expectParameter = true →
      t.value = some v → v ≠ [] → grammarIs t.value "types" = true →
      t.label ≠ ")" →
      parseParameters t f sym =
        ({ f with expectParameterType := true },
         { sym with params := sym.params ++ [{ name := v, type := some v }] })) ∧
    (∀ (t : AcornToken) (f : CFlags) (sym : Symbols) (w : List Char)
       (ps : List SParam) (p : SParam),
      sym.type = some .Function → f.expectParameter = true →
      f.expectParameterType = true →
      t.value = some w → w ≠ [] → grammarIs t.value "types" = false →
      t.label ≠ ")" → sym.params = ps ++ [p] →
      parseParameters t f sym =
        (f, { sym with params := ps ++ [{ p with name := w }] })) ∧
    (∀ (t : AcornToken) (f : CFlags) (sym : Symbols),
      sym.type = some .Function → f.expectParameter = true →
      t.value = none → t.label = ")" →
      parseParameters t f sym = ({ f with expectParameter := false }, sym)) := by
  refine ⟨?_, ?_, ?_⟩
  · intro t f sym v htype hexp hval hv hgram hlab
    unfold parseParameters
    rw [hval] at hgram
    simp [htype, hexp, hval, hgram, hlab, truthy, hv, List.set_append]
  · intro t f sym w ps p htype hexp hept hval hw hgram hlab hparams
    unfold parseParameters
    rw [hval] at hgram
    simp [htype, hexp, hept, hval, hw, hgram, hlab, hparams, truthy, List.set_append]
  · intro t f sym htype hexp hval hlab
    unfold parseParameters
    simp [htype, hexp, hval, hlab, truthy]

theorem claim5_witness :
    parseParameters { value := some "char".toList, label := "name" }
        { done := false, expectName := false, expectParameter := true,
          expectParameterType := false }
        { name := [], type := some .Function, varType := none, params := [],
          ret := { present := true, type := none } } =
      ({ done := false, expectName := false, expectParameter := true,
         expectParameterType := true },
       { name := [], type := some .Function, varType := none,
         params := [{ name := "char".toList, type := some "char".toList }],
         ret := { present := true, type := none } }) ∧
    parseParameters { value := some "x".toList, label := "name" }
        { done := false, expectName := false, expectParameter := true,
          expectParameterType := true }
        { name := [], type := some .Function, varType := none,
          params := [{ name := "char".toList, type := some "char".toList }],
          ret := { present := true, type := none } } =
      ({ done := false, expectName := false, expectParameter := true,
         expectParameterType := true },
       { name := [], type := some .Function, varType := none,
         params := [{ name := "x".toList, type := some "char".toList }],
         ret := { present := true, type := none } }) ∧
    parseParameters { value := none, label := ")" }
        { done := false, expectName := false, expectParameter := true,
          expectParameterType := true }
        { name := [], type := some .Function, varType := none,
          params := [{ name := "x".toList, type := some "char".toList }],
          ret := { present := true, type := none } } =
      ({ done := false, expectName := false, expectParameter := false,
         expectParameterType := true },
       { name := [], type := some .Function, varType := none,
         params := [{ name := "x".toList, type := some "char".toList }],
         ret := { present := true, type := none } }) := by
  refine ⟨?_, ?_, ?_⟩
  · exact claim5_amended.1 _ _ _ "char".toList rfl rfl rfl (by decide) (by decide)
      (by decide)
  · exact claim5_amended.2.1 _ _ _ "x".toList []
      { name := "char".toList, type := some "char".toList } rfl rfl rfl rfl
      (by decide) (by decide) (by decide) (by simp)
  · exact claim5_amended.2.2 _ _ _ rfl rfl rfl rfl

theorem jsBranch_ret {env : JsEnv} {code : List Char} {next : Option LVal}
    {toks : JsTokens} {tok0 : Lexed} {current : Option Lexed}
    {toks1 : JsTokens} {next1 : Option LVal} {current1 : Option Lexed}
    (h : jsBranch env code next toks tok0 current = .ok (toks1, next1, current1)) :
    toks1.ret = toks.ret := by
  unfold jsBranch at h
  split at h <;>
    (repeat' split at h) <;>
    (try cases h) <;> rfl

theorem jsParams_ret (lexed : List Lexed) (toks1 : JsTokens) :
    (jsParams lexed toks1).ret = toks1.ret := by
  unfold jsParams
  split <;> rfl

/-- Claim C10: `JavaScript.tokenize` never mutates the `return` component of
its `tokens` accumulator on any returning path, including through the
recursive continuation call, so a call on any code string with the default
`tokens` argument returns `return.present = true` unconditionally. -/
theorem claim10_return_present :
    (∀ (env : JsEnv) (fuel : Nat) (code? : Option (List Char)) (next : Option LVal)
        (toks r : JsTokens),
      tokenizeJS env fuel code? next toks = some (.ok r) → r.ret = toks.ret) ∧
    (∀ (env : JsEnv) (fuel : Nat) (code : List Char) (r : JsTokens),
      tokenizeJS env fuel (some code) (some (.strv [])) defaultJsTokens =
        some (.ok r) → r.ret.present = true) := by
  have main : ∀ (env : JsEnv) (fuel : Nat) (code? : Option (List Char))
      (next : Option LVal) (toks r : JsTokens),
      tokenizeJS env fuel code? next toks = some (.ok r) → r.ret = toks.ret := by
    intro env fuel
    induction fuel with
    | zero => intro _ _ _ _ h; cases h
    | succ n ih =>
      intro code? next toks r h
      unfold tokenizeJS at h
      cases code? with
      | none =>
        injection h with h
        injection h with h
        rw [h]
      | some code =>
        dsimp only [] at h
        cases hlex : env.lexFn code with
        | error e => rw [hlex] at h; injection h with h; cases h
        | ok lexed =>
          rw [hlex] at h
          dsimp only [] at h
          cases hget : lexed.get? 0 with
          | none => rw [hget] at h; injection h with h; cases h
          | some tok0 =>
            rw [hget] at h
            dsimp only [] at h
            cases hbr : jsBranch env code next toks tok0 (findByType "text" lexed) with
            | error e => rw [hbr] at h; injection h with h; cases h
            | ok triple =>
              obtain ⟨toks1, next1, current1⟩ := triple
              rw [hbr] at h
              dsimp only [] at h
              have hret1 : toks1.ret = toks.ret := jsBranch_ret hbr
              have hret2 : (jsParams lexed toks1).ret = toks.ret := by
                rw [jsParams_ret, hret1]
              cases current1 with
              | none => injection h with h; cases h
              | some c =>
                cases heos : findByType "eos" lexed with
                | none => rw [heos] at h; injection h with h; cases h
                | some e =>
                  rw [heos] at h
                  dsimp only [] at h
                  split at h
                  · cases hcv : c.val with
                    | none => rw [hcv] at h; injection h with h; cases h
                    | some lv =>
                      cases lv with
                      | boolv b => rw [hcv] at h; injection h with h; cases h
                      | strv s =>
                        rw [hcv] at h
                        dsimp only [] at h
                        split at h
                        · cases hrec : tokenizeJS env n (some s) next1
                              (jsParams lexed toks1) with
                          | none => rw [hrec] at h; cases h
                          | some res =>
                            rw [hrec] at h
                            cases res with
                            | error err => injection h with h; cases h
                            | ok r2 =>
                              injection h with h
                              injection h with h
                              rw [h] at hrec
                              rw [ih (some s) next1 (jsParams lexed toks1) r hrec]
                              exact hret2
                        · injection h with h
                          injection h with h
                          rw [← h]
                          exact hret2
                  · injection h with h
                    injection h with h
                    rw [← h]
                    exact hret2
  refine ⟨main, ?_⟩
  intro env fuel code r h
  rw [main env fuel (some code) (some (.strv [])) defaultJsTokens r h]
  rfl

/-- A concrete environment for the C10 witness: the lexer helper returns a
`text` token past the `eos` column, so the continuation does not recurse. -/
def jsWitnessEnv : JsEnv :=
  { lexFn := fun _ => .ok [{ type := "text", line := 1, col := 5,
                             val := some (.strv ['x']) },
                           { type := "eos", line := 1, col := 3 }],
    matchesFn := fun _ _ => false,
    protoFn := fun _ => none }

theorem claim10_witness :
    tokenizeJS jsWitnessEnv 1 (some ['x']) (some (.strv [])) defaultJsTokens =
      some (.ok defaultJsTokens) ∧
    defaultJsTokens.ret.present = true :=
  ⟨by decide,
   claim10_return_present.2 jsWitnessEnv 1 ['x'] defaultJsTokens (by decide)⟩

/-! ## Infrastructure for the attribute-entry claim -/

/-- Plain identifier-like characters used to state the attribute-entry claim:
letters, digits, `$`, `_` — none of which are whitespace, quotes, brackets,
commas, or the `!`/`=` markers. -/
def plainChar (c : Char) : Bool := c.isAlpha || c.isDigit || c = '$' || c = '_'

theorem plain_ne {c d : Char} (h : plainChar c = true) (hd : plainChar d = false) :
    c ≠ d := by
  intro he
  rw [he, hd] at h
  cases h

theorem plain_not_wsattr {c : Char} (h : plainChar c = true) : isWsAttr c = false := by
  have h1 : c ≠ ' ' := plain_ne h (by decide)
  have h2 : c ≠ '\n' := plain_ne h (by decide)
  have h3 : c ≠ '\t' := plain_ne h (by decide)
  simp [isWsAttr, h1, h2, h3]

theorem plain_not_jsws {c : Char} (h : plainChar c = true) : isJsWs c = false := by
  have h1 : c ≠ ' ' := plain_ne h (by decide)
  have h2 : c ≠ '\t' := plain_ne h (by decide)
  have h3 : c ≠ '\n' := plain_ne h (by decide)
  have h4 : c ≠ '\r' := plain_ne h (by decide)
  have h5 : c ≠ Char.ofNat 11 := plain_ne h (by decide)
  have h6 : c ≠ Char.ofNat 12 := plain_ne h (by decide)
  simp [isJsWs, h1, h2, h3, h4, h5, h6]

theorem plain_not_quote {c : Char} (h : plainChar c = true) : isQuoteChar c = false := by
  have h1 : c ≠ sq := plain_ne h (by decide)
  have h2 : c ≠ '"' := plain_ne h (by decide)
  simp [isQuoteChar, h1, h2]

theorem plain_cpParseChar {c : Char} (h : plainChar c = true) :
    cpParseChar c cpDefault = cpDefault := by
  have h1 : c ≠ sq := plain_ne h (by decide)
  have h2 : c ≠ '"' := plain_ne h (by decide)
  have h3 : c ≠ '(' := plain_ne h (by decide)
  have h4 : c ≠ ')' := plain_ne h (by decide)
  have h5 : c ≠ '{' := plain_ne h (by decide)
  have h6 : c ≠ '}' := plain_ne h (by decide)
  have h7 : c ≠ '[' := plain_ne h (by decide)
  have h8 : c ≠ ']' := plain_ne h (by decide)
  simp [cpParseChar, cpDefault, h1, h2, h3, h4, h5, h6, h7, h8]

theorem dropWhile_of_none {p : Char → Bool} {l : List Char}
    (h : ∀ c ∈ l, p c = false) : l.dropWhile p = l := by
  cases l with
  | nil => rfl
  | cons c rest => simp [List.dropWhile_cons, h c (by simp)]

theorem jsTrim_plain {l : List Char} (h : ∀ c ∈ l, plainChar c = true) :
    jsTrim l = l := by
  unfold jsTrim
  rw [dropWhile_of_none (fun c hc => plain_not_jsws (h c hc))]
  rw [dropWhile_of_none (fun c hc => plain_not_jsws (h c (List.mem_reverse.mp hc)))]
  exact List.reverse_reverse l

theorem stripEdgeQuotes_plain {l : List Char} (h : ∀ c ∈ l, plainChar c = true) :
    stripEdgeQuotes l = l := by
  cases l with
  | nil => rfl
  | cons c rest =>
    have hc : isQuoteChar c = false := plain_not_quote (h c (by simp))
    simp only [stripEdgeQuotes, hc, Bool.false_eq_true, if_false]
    cases hlast : (c :: rest).getLast? with
    | none => simp at hlast
    | some d =>
      have hd : d ∈ c :: rest := List.mem_of_mem_getLast? hlast
      simp [plain_not_quote (h d hd)]

theorem count_nl_plain {l : List Char} (h : ∀ c ∈ l, plainChar c = true) :
    l.count '\n' = 0 := by
  rw [List.count_eq_zero]
  intro hm
  have := h '\n' hm
  exact absurd this (by decide)

/-- Scanning a run of plain characters, the modelled `parseUntil` loop finds
the `)` just past them. -/
theorem cpScan_plain (rest : List Char) :
    ∀ (k : List Char) (idx : Nat), (∀ c ∈ k, plainChar c = true) →
      cpParseUntilGo ')' (k ++ ')' :: rest) idx cpDefault = .ok (idx + k.length) := by
  intro k
  induction k with
  | nil =>
    intro idx h
    simp [cpParseUntilGo, CPState.isNesting, CPState.isString, cpDefault]
  | cons c k1 ih =>
    intro idx h
    have hc : plainChar c = true := h c (by simp)
    have hcp : c ≠ ')' := plain_ne hc (by decide)
    simp only [List.cons_append, cpParseUntilGo]
    rw [if_neg (by simp [CPState.isNesting, CPState.isString, cpDefault, hcp])]
    rw [plain_cpParseChar hc]
    have hrec := ih (idx + 1) (fun d hd => h d (by simp [hd]))
    have hlen : idx + (c :: k1).length = idx + 1 + k1.length := by
      simp only [List.length_cons]
      omega
    rw [hlen]
    exact hrec

theorem cpParse_plain {l : List Char} (h : ∀ c ∈ l, plainChar c = true) :
    cpParse l = cpDefault := by
  unfold cpParse
  induction l with
  | nil => rfl
  | cons c rest ih =>
    simp only [List.foldl_cons]
    rw [plain_cpParseChar (h c (by simp))]
    exact ih (fun d hd => h d (by simp [hd]))

theorem nlCheck_not_nl {attrStr : List Char} {n : Nat} {c : Char} (a : AttrSt)
    (hi : a.i = n) (hc : attrStr.get? n = some c) (hnl : c ≠ '\n') :
    nlCheck attrStr a = { a with tcol := a.tcol + 1 } := by
  unfold nlCheck
  rw [hi, hc]
  dsimp only []
  rw [if_neg hnl]

theorem nlCheck_none {attrStr : List Char} {n : Nat} (a : AttrSt)
    (hi : a.i = n) (hc : attrStr.get? n = none) : nlCheck attrStr a = a := by
  unfold nlCheck
  rw [hi, hc]

theorem lt_of_get?_eq_some {l : List Char} {n : Nat} {c : Char}
    (h : l.get? n = some c) : n < l.length := by
  by_contra hge
  push_neg at hge
  rw [List.get?_eq_none.mpr hge] at h
  cases h

theorem bool_and_ne_true {a b : Bool} (hb : b = false) : ¬((a && b) = true) := by
  simp [hb]

theorem bool_or_ne_true {a b : Bool} (ha : a = false) (hb : b = false) :
    ¬((a || b) = true) := by
  simp [ha, hb]

theorem decide_false_of_ne {c d : Char} (h : c ≠ d) : decide (c = d) = false := by
  simp [h]

/-- One `attrs`-loop body step in the `key` state on a plain character when
the key has not started: the character is appended to the key and
`columnBeginAttr` is pinned to the current column. -/
theorem attrsBody_key0 (emit : List Char → LVal) (o : Oracle) (attrStr : List Char)
    (a : AttrSt) (c : Char)
    (hc : attrStr.get? a.i = some c) (hp : plainChar c = true)
    (hloc : a.loc = .key) (hk : a.key = []) :
    attrsBody emit o attrStr a =
      .ok { a with key := a.key ++ [c], tcol := a.tcol + 1, colBeginAttr := a.tcol } := by
  have hqc : isQuoteChar c = false := plain_not_quote hp
  have hbang : c ≠ '!' := plain_ne hp (by decide)
  have heqc : c ≠ '=' := plain_ne hp (by decide)
  have hnl : c ≠ '\n' := plain_ne hp (by decide)
  have hisend : isEndOfAttr attrStr o a = (false, a.tcol) := by
    unfold isEndOfAttr
    rw [if_pos (by rw [hk]; rfl)]
  unfold attrsBody
  rw [hisend]
  dsimp only []
  rw [hloc]
  dsimp only []
  rw [hc]
  dsimp only []
  rw [if_neg Bool.false_ne_true]
  rw [if_neg (bool_and_ne_true hqc)]
  rw [if_neg (bool_or_ne_true (decide_false_of_ne hbang) (decide_false_of_ne heqc))]
  exact congrArg Except.ok (nlCheck_not_nl _ rfl hc hnl)

/-- One `attrs`-loop body step in the `key` state on a plain character when
the key is already non-empty and all-plain: the character is appended. -/
theorem attrsBody_key1 (emit : List Char → LVal) (o : Oracle) (attrStr : List Char)
    (a : AttrSt) (c : Char)
    (hc : attrStr.get? a.i = some c) (hp : plainChar c = true)
    (hloc : a.loc = .key) (hkey : ∀ d ∈ a.key, plainChar d = true)
    (hk : a.key ≠ []) :
    attrsBody emit o attrStr a =
      .ok { a with key := a.key ++ [c], tcol := a.tcol + 1 } := by
  have hqc : isQuoteChar c = false := plain_not_quote hp
  have hbang : c ≠ '!' := plain_ne hp (by decide)
  have heqc : c ≠ '=' := plain_ne hp (by decide)
  have hnl : c ≠ '\n' := plain_ne hp (by decide)
  have hcm : c ≠ ',' := plain_ne hp (by decide)
  have hws : isWsAttr c = false := plain_not_wsattr hp
  have hlen : a.i ≠ attrStr.length := by
    have := lt_of_get?_eq_some hc
    omega
  have hisend : isEndOfAttr attrStr o a = (false, a.colBeginAttr) := by
    unfold isEndOfAttr
    rw [if_neg (by rw [jsTrim_plain hkey]; exact hk)]
    rw [if_neg hlen]
    rw [hloc]
    dsimp only []
    rw [hc]
    dsimp only []
    rw [if_neg (by simp [hws])]
    simp [hcm]
  unfold attrsBody
  rw [hisend]
  dsimp only []
  rw [hloc]
  dsimp only []
  rw [hc]
  dsimp only []
  rw [if_neg Bool.false_ne_true]
  rw [if_neg (bool_and_ne_true hqc)]
  rw [if_neg (bool_or_ne_true (decide_false_of_ne hbang) (decide_false_of_ne heqc))]
  exact congrArg Except.ok (nlCheck_not_nl _ rfl hc hnl)

/-- One `attrs`-loop body step in the `value` state on a plain character with
the scanner in its default state: the character is appended to the value. -/
theorem attrsBody_value1 (emit : List Char → LVal) (o : Oracle) (attrStr : List Char)
    (a : AttrSt) (c : Char)
    (hc : attrStr.get? a.i = some c) (hp : plainChar c = true)
    (hloc : a.loc = .value) (hcps : a.cps = cpDefault)
    (hkey : ∀ d ∈ a.key, plainChar d = true) (hk : a.key ≠ []) :
    attrsBody emit o attrStr a =
      .ok { a with val := a.val ++ [c], cps := cpDefault, tcol := a.tcol + 1 } := by
  have hnl : c ≠ '\n' := plain_ne hp (by decide)
  have hcm : c ≠ ',' := plain_ne hp (by decide)
  have hws : isWsAttr c = false := plain_not_wsattr hp
  have hlen : a.i ≠ attrStr.length := by
    have := lt_of_get?_eq_some hc
    omega
  have hisend : isEndOfAttr attrStr o a = (false, a.colBeginAttr) := by
    unfold isEndOfAttr
    rw [if_neg (by rw [jsTrim_plain hkey]; exact hk)]
    rw [if_neg hlen]
    rw [hloc]
    dsimp only []
    rw [if_neg (by rw [hcps]; simp [CPState.isNesting, CPState.isString, cpDefault])]
    by_cases ho : o a.val = true
    · rw [if_neg (by simp [ho])]
      rw [hc]
      dsimp only []
      rw [if_neg (by simp [hws])]
      simp [hcm]
    · rw [if_pos (by simp at ho; simp [ho])]
  unfold attrsBody
  rw [hisend]
  dsimp only []
  rw [if_neg Bool.false_ne_true]
  rw [hloc]
  dsimp only []
  rw [hc]
  dsimp only []
  rw [hcps, plain_cpParseChar hp]
  exact congrArg Except.ok (nlCheck_not_nl _ rfl hc hnl)

/-- One `attrs`-loop body step in the `key` state on `=`: switch to the
`value` state with `mustEscape` left `true`-style (`escapedAttr := true`). -/
theorem attrsBody_eq_jump (emit : List Char → LVal) (o : Oracle) (attrStr : List Char)
    (a : AttrSt)
    (hc : attrStr.get? a.i = some '=')
    (hloc : a.loc = .key) (hkey : ∀ d ∈ a.key, plainChar d = true)
    (hk : a.key ≠ []) :
    attrsBody emit o attrStr a =
      .ok { a with escapedAttr := true, loc := .value, colBeginVal := a.tcol + 1,
                   cps := cpDefault, tcol := a.tcol + 1 } := by
  have hlen : a.i ≠ attrStr.length := by
    have := lt_of_get?_eq_some hc
    omega
  have hisend : isEndOfAttr attrStr o a = (false, a.colBeginAttr) := by
    unfold isEndOfAttr
    rw [if_neg (by rw [jsTrim_plain hkey]; exact hk)]
    rw [if_neg hlen]
    rw [hloc]
    dsimp only []
    rw [hc]
    dsimp only []
    rw [if_neg (by simp [isWsAttr])]
    simp
  unfold attrsBody
  rw [hisend]
  dsimp only []
  rw [if_neg Bool.false_ne_true]
  rw [hloc]
  dsimp only []
  rw [hc]
  dsimp only []
  rw [if_neg (by simp [isQuoteChar, sq])]
  rw [if_pos (by simp)]
  try dsimp only []
  rw [if_neg (by simp)]
  rw [hc]
  try dsimp only []
  exact congrArg Except.ok (nlCheck_not_nl _ rfl hc (by decide))

/-- One `attrs`-loop body step in the `key` state on `!` immediately followed
by `=`: switch to the `value` state with `escapedAttr := false`, consuming
both characters (the loop body increments `i` once itself). -/
theorem attrsBody_bang_jump (emit : List Char → LVal) (o : Oracle) (attrStr : List Char)
    (a : AttrSt)
    (hc : attrStr.get? a.i = some '!') (hc2 : attrStr.get? (a.i + 1) = some '=')
    (hloc : a.loc = .key) (hkey : ∀ d ∈ a.key, plainChar d = true)
    (hk : a.key ≠ []) :
    attrsBody emit o attrStr a =
      .ok { a with i := a.i + 1, escapedAttr := false, loc := .value,
                   colBeginVal := a.tcol + 2, cps := cpDefault, tcol := a.tcol + 2 } := by
  have hlen : a.i ≠ attrStr.length := by
    have := lt_of_get?_eq_some hc
    omega
  have hisend : isEndOfAttr attrStr o a = (false, a.colBeginAttr) := by
    unfold isEndOfAttr
    rw [if_neg (by rw [jsTrim_plain hkey]; exact hk)]
    rw [if_neg hlen]
    rw [hloc]
    dsimp only []
    rw [hc]
    dsimp only []
    rw [if_neg (by simp [isWsAttr])]
    simp
  unfold attrsBody
  rw [hisend]
  dsimp only []
  rw [if_neg Bool.false_ne_true]
  rw [hloc]
  dsimp only []
  rw [hc]
  dsimp only []
  rw [if_neg (by simp [isQuoteChar, sq])]
  rw [if_pos (by simp)]
  try dsimp only []
  rw [if_pos rfl]
  rw [hc2]
  try dsimp only []
  exact congrArg Except.ok (nlCheck_not_nl _ rfl hc2 (by decide))

/-- The final `attrs`-loop body step at `i = attrStr.length` with a non-empty
plain key: the attribute token is emitted with the trimmed key and value. -/
theorem attrsBody_emit (emit : List Char → LVal) (o : Oracle) (attrStr : List Char)
    (a : AttrSt)
    (hi : a.i = attrStr.length)
    (hkey : ∀ d ∈ a.key, plainChar d = true) (hk : a.key ≠ [])
    (hval : ∀ d ∈ a.val, plainChar d = true)
    (horacle : a.val ≠ [] → o a.val = true) :
    attrsBody emit o attrStr a =
      .ok { a with key := [], val := [], loc := .key, escapedAttr := false,
                   tline := a.lline,
                   toks := a.toks ++
                     [{ type := "attribute", line := a.tline, col := a.colBeginAttr,
                        name := some a.key, val := some (emit a.val),
                        mustEscape := some a.escapedAttr }] } := by
  have hisend : isEndOfAttr attrStr o a = (true, a.colBeginAttr) := by
    unfold isEndOfAttr
    rw [if_neg (by rw [jsTrim_plain hkey]; exact hk)]
    rw [if_pos hi]
  have hnone : attrStr.get? a.i = none := by
    rw [hi]
    exact List.get?_eq_none.mpr le_rfl
  unfold attrsBody
  rw [hisend]
  dsimp only []
  rw [if_pos rfl]
  rw [if_neg ?hcond]
  case hcond =>
    rw [jsTrim_plain hval]
    by_cases hv : a.val = []
    · simp [hv]
    · simp [hv, horacle hv]
  rw [jsTrim_plain hval, jsTrim_plain hkey, stripEdgeQuotes_plain hkey]
  exact congrArg Except.ok (nlCheck_none _ rfl hnone)

theorem attrsLoop_step (emit : List Char → LVal) (o : Oracle) (attrStr : List Char)
    {a a1 : AttrSt} (fuel : Nat)
    (hle : a.i ≤ attrStr.length) (hbody : attrsBody emit o attrStr a = .ok a1) :
    attrsLoop emit o attrStr (fuel + 1) a =
      attrsLoop emit o attrStr fuel { a1 with i := a1.i + 1 } := by
  conv_lhs => unfold attrsLoop
  rw [if_pos hle, hbody]

/-- Running the `attrs` loop across a segment of plain characters in the
`key` state appends the segment to the key and advances `i` and the column. -/
theorem attrsLoop_key_run (emit : List Char → LVal) (o : Oracle) (attrStr : List Char) :
    ∀ (seg : List Char) (fuel : Nat) (a : AttrSt),
      (∀ c ∈ seg, plainChar c = true) →
      a.loc = .key → (∀ d ∈ a.key, plainChar d = true) → a.key ≠ [] →
      (∀ j, j < seg.length → attrStr.get? (a.i + j) = seg.get? j) →
      attrsLoop emit o attrStr (fuel + seg.length) a =
        attrsLoop emit o attrStr fuel
          { a with i := a.i + seg.length, key := a.key ++ seg,
                   tcol := a.tcol + seg.length } := by
  intro seg
  induction seg with
  | nil =>
    intro fuel a _ _ _ _ _
    simp
  | cons c seg1 ih =>
    intro fuel a hplain hloc hkey hk hseg
    have hc : attrStr.get? a.i = some c := by
      have := hseg 0 (by simp)
      simpa using this
    have hstep := attrsBody_key1 emit o attrStr a c hc (hplain c (by simp)) hloc hkey hk
    have hle : a.i ≤ attrStr.length := le_of_lt (lt_of_get?_eq_some hc)
    have hfuel : fuel + (c :: seg1).length = (fuel + seg1.length) + 1 := by
      simp only [List.length_cons]
      omega
    rw [hfuel]
    rw [attrsLoop_step emit o attrStr (fuel + seg1.length) hle hstep]
    have hrec := ih fuel
      { a with i := a.i + 1, key := a.key ++ [c], tcol := a.tcol + 1 }
      (fun d hd => hplain d (by simp [hd]))
      hloc
      (by
        intro d hd
        rcases List.mem_append.mp hd with h1 | h2
        · exact hkey d h1
        · simp at h2
          rw [h2]
          exact hplain c (by simp))
      (by simp)
      (by
        intro j hj
        have := hseg (j + 1) (by simp; omega)
        dsimp only []
        rw [show a.i + 1 + j = a.i + (j + 1) from by omega]
        simpa using this)
    rw [hrec]
    have e1 : a.i + 1 + seg1.length = a.i + (seg1.length + 1) := by omega
    have e2 : a.tcol + 1 + seg1.length = a.tcol + (seg1.length + 1) := by omega
    simp [e1, e2, List.append_assoc]

/-- Running the `attrs` loop across a segment of plain characters in the
`value` state appends the segment to the value. -/
theorem attrsLoop_value_run (emit : List Char → LVal) (o : Oracle) (attrStr : List Char) :
    ∀ (seg : List Char) (fuel : Nat) (a : AttrSt),
      (∀ c ∈ seg, plainChar c = true) →
      a.loc = .value → a.cps = cpDefault →
      (∀ d ∈ a.key, plainChar d = true) → a.key ≠ [] →
      (∀ j, j < seg.length → attrStr.get? (a.i + j) = seg.get? j) →
      attrsLoop emit o attrStr (fuel + seg.length) a =
        attrsLoop emit o attrStr fuel
          { a with i := a.i + seg.length, val := a.val ++ seg, cps := cpDefault,
                   tcol := a.tcol + seg.length } := by
  intro seg
  induction seg with
  | nil =>
    intro fuel a _ _ hcps _ _ _
    simp [← hcps]
  | cons c seg1 ih =>
    intro fuel a hplain hloc hcps hkey hk hseg
    have hc : attrStr.get? a.i = some c := by
      have := hseg 0 (by simp)
      simpa using this
    have hstep := attrsBody_value1 emit o attrStr a c hc (hplain c (by simp)) hloc hcps
      hkey hk
    have hle : a.i ≤ attrStr.length := le_of_lt (lt_of_get?_eq_some hc)
    have hfuel : fuel + (c :: seg1).length = (fuel + seg1.length) + 1 := by
      simp only [List.length_cons]
      omega
    rw [hfuel]
    rw [attrsLoop_step emit o attrStr (fuel + seg1.length) hle hstep]
    have hrec := ih fuel
      { a with i := a.i + 1, val := a.val ++ [c], cps := cpDefault, tcol := a.tcol + 1 }
      (fun d hd => hplain d (by simp [hd]))
      hloc
      rfl
      hkey
      hk
      (by
        intro j hj
        have := hseg (j + 1) (by simp; omega)
        dsimp only []
        rw [show a.i + 1 + j = a.i + (j + 1) from by omega]
        simpa using this)
    rw [hrec]
    have e1 : a.i + 1 + seg1.length = a.i + (seg1.length + 1) := by omega
    have e2 : a.tcol + 1 + seg1.length = a.tcol + (seg1.length + 1) := by omega
    simp [e1, e2, List.append_assoc]

/-- The scanning loop of the modelled `parseUntil` passes over characters that
do not close the bracket and do not change the default scanner state, and
stops at the first `)`. -/
theorem cpScan_neutral (rest : List Char) :
    ∀ (mid : List Char) (idx : Nat),
      (∀ c ∈ mid, c ≠ ')' ∧ cpParseChar c cpDefault = cpDefault) →
      cpParseUntilGo ')' (mid ++ ')' :: rest) idx cpDefault = .ok (idx + mid.length) := by
  intro mid
  induction mid with
  | nil =>
    intro idx h
    simp [cpParseUntilGo, CPState.isNesting, CPState.isString, cpDefault]
  | cons c k1 ih =>
    intro idx h
    obtain ⟨hcp, hcn⟩ := h c (by simp)
    simp only [List.cons_append, cpParseUntilGo]
    rw [if_neg (by simp [CPState.isNesting, CPState.isString, cpDefault, hcp])]
    rw [hcn]
    have hrec := ih (idx + 1) (fun d hd => h d (by simp [hd]))
    have hlen : idx + (c :: k1).length = idx + 1 + k1.length := by
      simp only [List.length_cons]
      omega
    rw [hlen]
    exact hrec

theorem cpParse_neutral {mid : List Char}
    (h : ∀ c ∈ mid, cpParseChar c cpDefault = cpDefault) : cpParse mid = cpDefault := by
  unfold cpParse
  induction mid with
  | nil => rfl
  | cons c rest ih =>
    simp only [List.foldl_cons]
    rw [h c (by simp)]
    exact ih (fun d hd => h d (by simp [hd]))

/-- The common shell of a successful `attrs` recognition on input
`( mid ) rest`: the bracket scan finds the `)` just past `mid`, the nesting
check passes, `mid )` is consumed, and the loop result determines the tokens
and columns. -/
theorem attrsStep_run (emit : List Char → LVal) (o : Oracle) (st : LexSt)
    (mid rest : List Char) (aF : AttrSt)
    (hin : st.input = '(' :: (mid ++ ')' :: rest))
    (hneutral : ∀ c ∈ mid, c ≠ ')' ∧ cpParseChar c cpDefault = cpDefault)
    (hloop : attrsLoop emit o mid (mid.length + 2) (attrsInit st) = .ok aF) :
    attrsStep emit o st = some (.ok
      { st with input := rest,
                consumed := st.consumed ++ ('(' :: (mid ++ [')'])),
                line := st.line + mid.count '\n',
                col := aF.tcol + 1,
                tokens := (st.tokens ++ [mkTok st "start-attributes" none]) ++ aF.toks ++
                  [{ type := "end-attributes", line := st.line + mid.count '\n',
                     col := aF.tcol }] }) := by
  have hpu : cpParseUntil st.input ')' 1 = .ok (1 + mid.length) := by
    unfold cpParseUntil
    rw [hin]
    exact cpScan_neutral rest mid 1 hneutral
  have hattr : (st.input.drop 1).take (1 + mid.length - 1) = mid := by
    rw [hin]
    simp
  have hdrop : st.input.drop (1 + mid.length + 1) = rest := by
    rw [hin]
    rw [show 1 + mid.length + 1 = (mid.length + 1) + 1 from by omega]
    rw [List.drop_succ_cons]
    rw [show mid.length + 1 = mid.length + 1 from rfl]
    rw [List.drop_append 1]
    rfl
  have htake : st.input.take (1 + mid.length + 1) = '(' :: (mid ++ [')']) := by
    rw [hin]
    rw [show 1 + mid.length + 1 = (mid.length + 1) + 1 from by omega]
    rw [List.take_succ_cons]
    rw [List.take_append 1]
    rfl
  unfold attrsStep
  rw [if_pos (by rw [hin]; rfl)]
  rw [hpu]
  dsimp only []
  rw [hattr]
  rw [if_neg (by
    rw [cpParse_neutral (fun c hc => (hneutral c hc).2)]
    simp [CPState.isNesting, cpDefault])]
  rw [hloop]
  dsimp only []
  simp only [consume, hdrop, htake]

/-- The `attrs` loop over a bare plain key `k` emits one attribute token with
name `k`, the empty value, and `mustEscape = true`. -/
theorem attrsLoop_bare (emit : List Char → LVal) (o : Oracle) (k : List Char)
    (st : LexSt) (hk : k ≠ []) (hplain : ∀ c ∈ k, plainChar c = true) :
    attrsLoop emit o k (k.length + 2) (attrsInit st) = .ok
      { i := k.length + 1, quote := none, escapedAttr := false, key := [], val := [],
        loc := .key, cps := cpDefault, lline := st.line, colBeginAttr := st.col + 1,
        colBeginVal := 0, tline := st.line, tcol := st.col + 1 + k.length,
        toks := [{ type := "attribute", line := st.line, col := st.col + 1,
                   name := some k, val := some (emit []), mustEscape := some true }] } := by
  obtain ⟨c, k1, hck⟩ : ∃ c k1, k = c :: k1 := by
    cases k with
    | nil => exact absurd rfl hk
    | cons c k1 => exact ⟨c, k1, rfl⟩
  subst hck
  have hb0 := attrsBody_key0 emit o (c :: k1) (attrsInit st) c (by simp [attrsInit])
    (hplain c (by simp)) rfl rfl
  rw [show (c :: k1).length + 2 = (k1.length + 2) + 1 from by simp]
  rw [attrsLoop_step emit o (c :: k1) (k1.length + 2) (by simp [attrsInit]) hb0]
  rw [show k1.length + 2 = 2 + k1.length from by omega]
  rw [attrsLoop_key_run emit o (c :: k1) k1 2 _
    (fun d hd => hplain d (by simp [hd]))
    rfl
    (by
      intro d hd
      simp [attrsInit] at hd
      rw [hd]
      exact hplain c (by simp))
    (by simp [attrsInit])
    (by
      intro j hj
      show (c :: k1).get? (1 + j) = k1.get? j
      rw [Nat.add_comm 1 j]
      rfl)]
  dsimp only [attrsInit]
  simp only [Nat.zero_add, List.nil_append, List.singleton_append]
  have hemit := attrsBody_emit emit o (c :: k1)
    { i := 1 + k1.length, quote := none, escapedAttr := true, key := c :: k1, val := [],
      loc := .key, cps := cpDefault, lline := st.line, colBeginAttr := st.col + 1,
      colBeginVal := 0, tline := st.line, tcol := st.col + 1 + 1 + k1.length, toks := [] }
    (by simp; omega)
    (by intro d hd; exact hplain d hd)
    (by simp)
    (by intro d hd; simp at hd)
    (fun h => absurd rfl h)
  rw [show (2 : Nat) = 1 + 1 from rfl]
  rw [attrsLoop_step emit o (c :: k1) 1 (by simp; omega) hemit]
  conv_lhs => unfold attrsLoop
  rw [if_neg (by simp)]
  simp only [List.length_cons, List.nil_append, Except.ok.injEq, AttrSt.mk.injEq,
    and_true, true_and]
  omega

/-- The `attrs` loop over `k = v` (plain key and value, `v` accepted by the
oracle) emits one attribute token with name `k`, value `emit v`, and
`mustEscape = true`. -/
theorem attrsLoop_withval (emit : List Char → LVal) (o : Oracle) (k v : List Char)
    (st : LexSt) (hk : k ≠ []) (hv : v ≠ [])
    (hkp : ∀ c ∈ k, plainChar c = true) (hvp : ∀ c ∈ v, plainChar c = true)
    (ho : o v = true) :
    attrsLoop emit o (k ++ '=' :: v) ((k ++ '=' :: v).length + 2) (attrsInit st) = .ok
      { i := (k ++ '=' :: v).length + 1, quote := none, escapedAttr := false, key := [],
        val := [], loc := .key, cps := cpDefault, lline := st.line,
        colBeginAttr := st.col + 1, colBeginVal := st.col + 1 + k.length + 1,
        tline := st.line, tcol := st.col + 1 + k.length + 1 + v.length,
        toks := [{ type := "attribute", line := st.line, col := st.col + 1,
                   name := some k, val := some (emit v), mustEscape := some true }] } := by
  obtain ⟨c, k1, hck⟩ : ∃ c k1, k = c :: k1 := by
    cases k with
    | nil => exact absurd rfl hk
    | cons c k1 => exact ⟨c, k1, rfl⟩
  subst hck
  have hlen : ((c :: k1) ++ '=' :: v).length = k1.length + v.length + 2 := by
    simp
    omega
  have hb0 := attrsBody_key0 emit o ((c :: k1) ++ '=' :: v) (attrsInit st) c
    (by simp [attrsInit]) (hkp c (by simp)) rfl rfl
  rw [show ((c :: k1) ++ '=' :: v).length + 2 = (k1.length + v.length + 3) + 1 from by
    rw [hlen]]
  rw [attrsLoop_step emit o ((c :: k1) ++ '=' :: v) (k1.length + v.length + 3)
    (by simp [attrsInit]) hb0]
  rw [show k1.length + v.length + 3 = (v.length + 3) + k1.length from by omega]
  rw [attrsLoop_key_run emit o ((c :: k1) ++ '=' :: v) k1 (v.length + 3) _
    (fun d hd => hkp d (by simp [hd]))
    rfl
    (by
      intro d hd
      simp [attrsInit] at hd
      rw [hd]
      exact hkp c (by simp))
    (by simp [attrsInit])
    (by
      intro j hj
      show ((c :: k1) ++ '=' :: v).get? (1 + j) = k1.get? j
      rw [Nat.add_comm 1 j]
      show (k1 ++ '=' :: v).get? j = k1.get? j
      exact List.get?_append hj)]
  dsimp only [attrsInit]
  simp only [Nat.zero_add, List.nil_append, List.singleton_append]
  have hceq : ((c :: k1) ++ '=' :: v).get? (1 + k1.length) = some '=' := by
    rw [Nat.add_comm 1 k1.length]
    show (k1 ++ '=' :: v).get? k1.length = some '='
    rw [List.get?_append_right (le_refl k1.length)]
    simp
  have hjump := attrsBody_eq_jump emit o ((c :: k1) ++ '=' :: v)
    { i := 1 + k1.length, quote := none, escapedAttr := true, key := c :: k1, val := [],
      loc := .key, cps := cpDefault, lline := st.line, colBeginAttr := st.col + 1,
      colBeginVal := 0, tline := st.line, tcol := st.col + 1 + 1 + k1.length, toks := [] }
    hceq rfl (by intro d hd; exact hkp d hd) (by simp)
  rw [show v.length + 3 = (v.length + 2) + 1 from by omega]
  rw [attrsLoop_step emit o ((c :: k1) ++ '=' :: v) (v.length + 2)
    (by simp; omega) hjump]
  dsimp only []
  rw [show v.length + 2 = 2 + v.length from by omega]
  rw [attrsLoop_value_run emit o ((c :: k1) ++ '=' :: v) v 2 _
    hvp
    rfl
    rfl
    (by intro d hd; exact hkp d hd)
    (by simp)
    (by
      intro j hj
      show ((c :: k1) ++ '=' :: v).get? (1 + k1.length + 1 + j) = v.get? j
      rw [show 1 + k1.length + 1 + j = (k1.length + 1 + j) + 1 from by omega]
      show (k1 ++ '=' :: v).get? (k1.length + 1 + j) = v.get? j
      rw [List.get?_append_right (by omega)]
      rw [show k1.length + 1 + j - k1.length = j + 1 from by omega]
      rfl)]
  dsimp only []
  simp only [Nat.zero_add, List.nil_append, List.singleton_append]
  have hemit := attrsBody_emit emit o ((c :: k1) ++ '=' :: v)
    { i := 1 + k1.length + 1 + v.length, quote := none, escapedAttr := true,
      key := c :: k1, val := v, loc := .value, cps := cpDefault, lline := st.line,
      colBeginAttr := st.col + 1, colBeginVal := st.col + 1 + 1 + k1.length + 1,
      tline := st.line, tcol := st.col + 1 + 1 + k1.length + 1 + v.length, toks := [] }
    (by simp; omega)
    (by intro d hd; exact hkp d hd)
    (by simp)
    (by intro d hd; exact hvp d hd)
    (fun _ => ho)
  rw [show (2 : Nat) = 1 + 1 from rfl]
  rw [attrsLoop_step emit o ((c :: k1) ++ '=' :: v) 1 (by simp; omega) hemit]
  conv_lhs => unfold attrsLoop
  rw [if_neg (by simp; omega)]
  simp only [List.length_cons, List.length_append, List.nil_append, Except.ok.injEq,
    AttrSt.mk.injEq, and_true, true_and]
  omega

/-- The `attrs` loop over `k != v` (plain key and value, `v` accepted by the
oracle) emits one attribute token with name `k`, value `emit v`, and
`mustEscape = false`. -/
theorem attrsLoop_bangval (emit : List Char → LVal) (o : Oracle) (k v : List Char)
    (st : LexSt) (hk : k ≠ []) (hv : v ≠ [])
    (hkp : ∀ c ∈ k, plainChar c = true) (hvp : ∀ c ∈ v, plainChar c = true)
    (ho : o v = true) :
    attrsLoop emit o (k ++ '!' :: '=' :: v) ((k ++ '!' :: '=' :: v).length + 2)
      (attrsInit st) = .ok
      { i := (k ++ '!' :: '=' :: v).length + 1, quote := none, escapedAttr := false,
        key := [], val := [], loc := .key, cps := cpDefault, lline := st.line,
        colBeginAttr := st.col + 1, colBeginVal := st.col + 1 + k.length + 2,
        tline := st.line, tcol := st.col + 1 + k.length + 2 + v.length,
        toks := [{ type := "attribute", line := st.line, col := st.col + 1,
                   name := some k, val := some (emit v), mustEscape := some false }] } := by
  obtain ⟨c, k1, hck⟩ : ∃ c k1, k = c :: k1 := by
    cases k with
    | nil => exact absurd rfl hk
    | cons c k1 => exact ⟨c, k1, rfl⟩
  subst hck
  have hlen : ((c :: k1) ++ '!' :: '=' :: v).length = k1.length + v.length + 3 := by
    simp
    omega
  have hb0 := attrsBody_key0 emit o ((c :: k1) ++ '!' :: '=' :: v) (attrsInit st) c
    (by simp [attrsInit]) (hkp c (by simp)) rfl rfl
  rw [show ((c :: k1) ++ '!' :: '=' :: v).length + 2 = (k1.length + v.length + 4) + 1 from by
    rw [hlen]]
  rw [attrsLoop_step emit o ((c :: k1) ++ '!' :: '=' :: v) (k1.length + v.length + 4)
    (by simp [attrsInit]) hb0]
  rw [show k1.length + v.length + 4 = (v.length + 4) + k1.length from by omega]
  rw [attrsLoop_key_run emit o ((c :: k1) ++ '!' :: '=' :: v) k1 (v.length + 4) _
    (fun d hd => hkp d (by simp [hd]))
    rfl
    (by
      intro d hd
      simp [attrsInit] at hd
      rw [hd]
      exact hkp c (by simp))
    (by simp [attrsInit])
    (by
      intro j hj
      show ((c :: k1) ++ '!' :: '=' :: v).get? (1 + j) = k1.get? j
      rw [Nat.add_comm 1 j]
      show (k1 ++ '!' :: '=' :: v).get? j = k1.get? j
      exact List.get?_append hj)]
  dsimp only [attrsInit]
  simp only [Nat.zero_add, List.nil_append, List.singleton_append]
  have hceq : ((c :: k1) ++ '!' :: '=' :: v).get? (1 + k1.length) = some '!' := by
    rw [Nat.add_comm 1 k1.length]
    show (k1 ++ '!' :: '=' :: v).get? k1.length = some '!'
    rw [List.get?_append_right (le_refl k1.length)]
    simp
  have hceq2 : ((c :: k1) ++ '!' :: '=' :: v).get? (1 + k1.length + 1) = some '=' := by
    rw [show 1 + k1.length + 1 = k1.length + 1 + 1 from by omega]
    show (k1 ++ '!' :: '=' :: v).get? (k1.length + 1) = some '='
    rw [List.get?_append_right (by omega)]
    rw [show k1.length + 1 - k1.length = 1 from by omega]
    rfl
  have hjump := attrsBody_bang_jump emit o ((c :: k1) ++ '!' :: '=' :: v)
    { i := 1 + k1.length, quote := none, escapedAttr := true, key := c :: k1, val := [],
      loc := .key, cps := cpDefault, lline := st.line, colBeginAttr := st.col + 1,
      colBeginVal := 0, tline := st.line, tcol := st.col + 1 + 1 + k1.length, toks := [] }
    hceq hceq2 rfl (by intro d hd; exact hkp d hd) (by simp)
  rw [show v.length + 4 = (v.length + 3) + 1 from by omega]
  rw [attrsLoop_step emit o ((c :: k1) ++ '!' :: '=' :: v) (v.length + 3)
    (by simp; omega) hjump]
  dsimp only []
  rw [show v.length + 3 = 3 + v.length from by omega]
  rw [attrsLoop_value_run emit o ((c :: k1) ++ '!' :: '=' :: v) v 3 _
    hvp
    rfl
    rfl
    (by intro d hd; exact hkp d hd)
    (by simp)
    (by
      intro j hj
      show ((c :: k1) ++ '!' :: '=' :: v).get? (1 + k1.length + 1 + 1 + j) = v.get? j
      rw [show 1 + k1.length + 1 + 1 + j = (k1.length + 2 + j) + 1 from by omega]
      show (k1 ++ '!' :: '=' :: v).get? (k1.length + 2 + j) = v.get? j
      rw [List.get?_append_right (by omega)]
      rw [show k1.length + 2 + j - k1.length = j + 2 from by omega]
      rfl)]
  dsimp only []
  simp only [Nat.zero_add, List.nil_append, List.singleton_append]
  have hemit := attrsBody_emit emit o ((c :: k1) ++ '!' :: '=' :: v)
    { i := 1 + k1.length + 1 + 1 + v.length, quote := none, escapedAttr := false,
      key := c :: k1, val := v, loc := .value, cps := cpDefault, lline := st.line,
      colBeginAttr := st.col + 1, colBeginVal := st.col + 1 + 1 + k1.length + 2,
      tline := st.line, tcol := st.col + 1 + 1 + k1.length + 2 + v.length, toks := [] }
    (by simp; omega)
    (by intro d hd; exact hkp d hd)
    (by simp)
    (by intro d hd; exact hvp d hd)
    (fun _ => ho)
  rw [show (3 : Nat) = 2 + 1 from rfl]
  rw [attrsLoop_step emit o ((c :: k1) ++ '!' :: '=' :: v) 2 (by simp; omega) hemit]
  rw [show (2 : Nat) = 1 + 1 from rfl]
  conv_lhs => unfold attrsLoop
  rw [if_neg (by simp; omega)]
  simp only [List.length_cons, List.length_append, List.nil_append, Except.ok.injEq,
    AttrSt.mk.injEq, and_true, true_and]
  omega

/-- Claim C4, counterexample: the claim says an attribute entry without a
default value yields a token whose `val` is the empty string.  In
`src/src/lexer.ts` (line 254, `tok.val = '' == val ? true : val`) the token's
`val` is the boolean `true` instead: lexing `(a)` produces an attribute token
with `val = true`, and `true` is not the empty string. -/
theorem claim4_counterexample :
    getTokens oracleTrue ('(' :: 'a' :: ')' :: []) = some (.ok
      [{ type := "start-attributes", line := 1, col := 1 },
       { type := "attribute", line := 1, col := 2, name := some ['a'],
         val := some (.boolv true), mustEscape := some true },
       { type := "end-attributes", line := 1, col := 3 },
       { type := "eos", line := 1, col := 4 }]) ∧
    some (LVal.boolv true) ≠ some (LVal.strv []) :=
  ⟨by decide, by decide⟩

/-- Claim C4, amended: in a parenthesized attribute list over plain
characters, an entry without a default value is emitted by the lexer of
`src/src/lexer.ts` with `val` equal to the boolean `true` (conjunct 1), while
the `Lexer` variant embedded in `src/src/languages/JavaScript.ts` emits the
empty string for it (conjunct 2); an entry `name=value` is emitted with `val`
equal to the (trimmed) value text and `mustEscape = true` (conjunct 3); an
entry `name!=value` is emitted with `mustEscape = false` (conjunct 4); and
the `Param` that `JavaScript.tokenize` builds from such an attribute token
copies the token's `name` and `val` unchanged (conjunct 5). -/
theorem claim4_amended (o : Oracle) (k v rest : List Char) (st : LexSt)
    (hk : k ≠ []) (hv : v ≠ [])
    (hkp : ∀ c ∈ k, plainChar c = true) (hvp : ∀ c ∈ v, plainChar c = true)
    (ho : o v = true) :
    ((attrsStep oldEmit o { st with input := '(' :: (k ++ ')' :: rest) }).map
        (fun r => r.map LexSt.tokens) =
      some (.ok (st.tokens ++
        [{ type := "start-attributes", line := st.line, col := st.col },
         { type := "attribute", line := st.line, col := st.col + 1,
           name := some k, val := some (LVal.boolv true), mustEscape := some true },
         { type := "end-attributes", line := st.line,
           col := st.col + 1 + k.length }]))) ∧
    ((attrsStep newEmit o { st with input := '(' :: (k ++ ')' :: rest) }).map
        (fun r => r.map LexSt.tokens) =
      some (.ok (st.tokens ++
        [{ type := "start-attributes", line := st.line, col := st.col },
         { type := "attribute", line := st.line, col := st.col + 1,
           name := some k, val := some (LVal.strv []), mustEscape := some true },
         { type := "end-attributes", line := st.line,
           col := st.col + 1 + k.length }]))) ∧
    ((attrsStep oldEmit o
          { st with input := '(' :: ((k ++ '=' :: v) ++ ')' :: rest) }).map
        (fun r => r.map LexSt.tokens) =
      some (.ok (st.tokens ++
        [{ type := "start-attributes", line := st.line, col := st.col },
         { type := "attribute", line := st.line, col := st.col + 1,
           name := some k, val := some (LVal.strv v), mustEscape := some true },
         { type := "end-attributes", line := st.line,
           col := st.col + 1 + k.length + 1 + v.length }]))) ∧
    ((attrsStep oldEmit o
          { st with input := '(' :: ((k ++ '!' :: '=' :: v) ++ ')' :: rest) }).map
        (fun r => r.map LexSt.tokens) =
      some (.ok (st.tokens ++
        [{ type := "start-attributes", line := st.line, col := st.col },
         { type := "attribute", line := st.line, col := st.col + 1,
           name := some k, val := some (LVal.strv v), mustEscape := some false },
         { type := "end-attributes", line := st.line,
           col := st.col + 1 + k.length + 2 + v.length }]))) ∧
    (jsParams
        [{ type := "start-attributes", line := st.line, col := st.col },
         { type := "attribute", line := st.line, col := st.col + 1,
           name := some k, val := some (LVal.strv v), mustEscape := some true },
         { type := "end-attributes", line := st.line,
           col := st.col + 1 + k.length + 1 + v.length }]
        defaultJsTokens =
      { defaultJsTokens with
        params := [{ name := some k, val := some (LVal.strv v) }] }) := by
  have hneuK : ∀ c ∈ k, c ≠ ')' ∧ cpParseChar c cpDefault = cpDefault :=
    fun c hc => ⟨plain_ne (hkp c hc) (by decide), plain_cpParseChar (hkp c hc)⟩
  have hneuEq : ∀ c ∈ k ++ '=' :: v, c ≠ ')' ∧ cpParseChar c cpDefault = cpDefault := by
    intro c hc
    rcases List.mem_append.mp hc with h | h
    · exact hneuK c h
    · rcases List.mem_cons.mp h with h | h
      · subst h
        exact ⟨by decide, by decide⟩
      · exact ⟨plain_ne (hvp c h) (by decide), plain_cpParseChar (hvp c h)⟩
  have hneuBang : ∀ c ∈ k ++ '!' :: '=' :: v,
      c ≠ ')' ∧ cpParseChar c cpDefault = cpDefault := by
    intro c hc
    rcases List.mem_append.mp hc with h | h
    · exact hneuK c h
    · rcases List.mem_cons.mp h with h | h
      · subst h
        exact ⟨by decide, by decide⟩
      · rcases List.mem_cons.mp h with h | h
        · subst h
          exact ⟨by decide, by decide⟩
        · exact ⟨plain_ne (hvp c h) (by decide), plain_cpParseChar (hvp c h)⟩
  have hcntk : k.count '\n' = 0 := count_nl_plain hkp
  have hcntv : v.count '\n' = 0 := count_nl_plain hvp
  have hcntEq : (k ++ '=' :: v).count '\n' = 0 := by
    simp [List.count_append, List.count_cons, hcntk, hcntv]
  have hcntBang : (k ++ '!' :: '=' :: v).count '\n' = 0 := by
    simp [List.count_append, List.count_cons, hcntk, hcntv]
  have hov : oldEmit v = LVal.strv v := by simp [oldEmit, hv]
  refine ⟨?_, ?_, ?_, ?_, ?_⟩
  · rw [attrsStep_run oldEmit o { st with input := '(' :: (k ++ ')' :: rest) } k rest _
      rfl hneuK (attrsLoop_bare oldEmit o k _ hk hkp)]
    simp [Except.map, mkTok, oldEmit, hcntk]
  · rw [attrsStep_run newEmit o { st with input := '(' :: (k ++ ')' :: rest) } k rest _
      rfl hneuK (attrsLoop_bare newEmit o k _ hk hkp)]
    simp [Except.map, mkTok, newEmit, hcntk]
  · rw [attrsStep_run oldEmit o
      { st with input := '(' :: ((k ++ '=' :: v) ++ ')' :: rest) } (k ++ '=' :: v) rest _
      rfl hneuEq (attrsLoop_withval oldEmit o k v _ hk hv hkp hvp ho)]
    simp [Except.map, mkTok, hov, hcntEq]
  · rw [attrsStep_run oldEmit o
      { st with input := '(' :: ((k ++ '!' :: '=' :: v) ++ ')' :: rest) }
      (k ++ '!' :: '=' :: v) rest _
      rfl hneuBang (attrsLoop_bangval oldEmit o k v _ hk hv hkp hvp ho)]
    simp [Except.map, mkTok, hov, hcntBang]
  · simp [jsParams, findByType, defaultJsTokens]

/-- Witness for C4: the amended theorem applied at key `a`, value `b`, the
always-true oracle and the initial lexer state. -/
theorem claim4_witness :
    ((attrsStep oldEmit oracleTrue
          { initSt [] with input := '(' :: (['a'] ++ ')' :: []) }).map
        (fun r => r.map LexSt.tokens) =
      some (.ok
        [{ type := "start-attributes", line := 1, col := 1 },
         { type := "attribute", line := 1, col := 2, name := some ['a'],
           val := some (LVal.boolv true), mustEscape := some true },
         { type := "end-attributes", line := 1, col := 3 }])) ∧
    ((attrsStep newEmit oracleTrue
          { initSt [] with input := '(' :: (['a'] ++ ')' :: []) }).map
        (fun r => r.map LexSt.tokens) =
      some (.ok
        [{ type := "start-attributes", line := 1, col := 1 },
         { type := "attribute", line := 1, col := 2, name := some ['a'],
           val := some (LVal.strv []), mustEscape := some true },
         { type := "end-attributes", line := 1, col := 3 }])) ∧
    ((attrsStep oldEmit oracleTrue
          { initSt [] with input := '(' :: ((['a'] ++ '=' :: ['b']) ++ ')' :: []) }).map
        (fun r => r.map LexSt.tokens) =
      some (.ok
        [{ type := "start-attributes", line := 1, col := 1 },
         { type := "attribute", line := 1, col := 2, name := some ['a'],
           val := some (LVal.strv ['b']), mustEscape := some true },
         { type := "end-attributes", line := 1, col := 5 }])) ∧
    ((attrsStep oldEmit oracleTrue
          { initSt [] with
            input := '(' :: ((['a'] ++ '!' :: '=' :: ['b']) ++ ')' :: []) }).map
        (fun r => r.map LexSt.tokens) =
      some (.ok
        [{ type := "start-attributes", line := 1, col := 1 },
         { type := "attribute", line := 1, col := 2, name := some ['a'],
           val := some (LVal.strv ['b']), mustEscape := some false },
         { type := "end-attributes", line := 1, col := 6 }])) ∧
    (jsParams
        [{ type := "start-attributes", line := 1, col := 1 },
         { type := "attribute", line := 1, col := 2, name := some ['a'],
           val := some (LVal.strv ['b']), mustEscape := some true },
         { type := "end-attributes", line := 1, col := 5 }]
        defaultJsTokens =
      { defaultJsTokens with
        params := [{ name := some ['a'], val := some (LVal.strv ['b']) }] }) :=
  claim4_amended oracleTrue ['a'] ['b'] [] (initSt [])
    (by decide) (by decide) (by decide) (by decide) rfl

end VsDocblockr
